import Mathlib

/-!
# Verification of the workspace dependency synchronization engine

A shallow embedding of `changeClonedDependencies.ts` (the core of the
`azure-js-dev-tools` repository): package discovery (`findPackage`),
target-version resolution (`getDependencyTargetVersion`), dependency
rewriting (`updateDependencies`) and the orchestrator
(`changeClonedDependenciesTo`).

External collaborators (filesystem primitives, `npm` wrappers, manifest
serialization, path utilities, the `StringProperty` regular expression of
the extra-files pass) are modelled as capability functions in an `Env`
record, exactly as the specification designates them.  Mutable effects
(manifest / lock-file / extra-file writes, `npm install` invocations,
`npm view` queries, folder searches) are recorded in an explicit run
state.  File reads are write-aware: a read observes the last write of the
run, falling back to the environment, mirroring `writeFileSync` followed
by `readFileSync`.

JavaScript truthiness of `string | undefined` values (`undefined` and
`""` are falsy) is modelled by `truthy`.
-/

namespace DepSync

/-- JS truthiness of a `string | undefined` value: `undefined` and the
empty string are falsy. -/
def truthy : Option String → Bool
  | none => false
  | some s => s != ""

/-- `DepedencyType` (sic) from the source: `"local" | "latest"`. -/
inductive DepedencyType where
  | strLocal
  | latest
deriving Repr, DecidableEq

/-- The relevant fields of a parsed `package.json` (`PackageJson`).
Dependency maps are association lists in insertion order, mirroring the
key order of a JS object. -/
structure PackageJson where
  name : Option String := none
  dependencies : Option (List (String × String)) := none
  devDependencies : Option (List (String × String)) := none
deriving Repr, DecidableEq

/-- `PackageFolder`: user-supplied per-folder configuration. -/
structure PackageFolder where
  path : String
  runNPMInstall : Option Bool := none
  defaultVersion : Option String := none
  dependenciesToIgnore : Option (List String) := none
deriving Repr, DecidableEq

/-- `ClonedPackage extends PackageFolder` with the mutable
`updated` / `targetVersion` fields. -/
structure ClonedPackage where
  path : String
  runNPMInstall : Option Bool := none
  defaultVersion : Option String := none
  dependenciesToIgnore : Option (List String) := none
  updated : Option Bool := none
  targetVersion : Option String := none
deriving Repr, DecidableEq

/-- An element of `options.packageFolders`: `string | PackageFolder`. -/
inductive PackageFolderArg where
  | str (s : String)
  | folder (f : PackageFolder)
deriving Repr, DecidableEq

/-- The `path` of a `string | PackageFolder` element. -/
def PackageFolderArg.getPath : PackageFolderArg → String
  | .str s => s
  | .folder f => f.path

/-- `ChangeClonedDependenciesToOptions` (logger and `setProcessExitCode`
omitted: logging is fire-and-forget and `process.exitCode` mirrors the
returned value). `recursive` / `forceInstall` default to the
no-CLI-argument `yargs` behaviour (`true` / `false`). -/
structure ChangeClonedDependenciesToOptions where
  recursive : Option Bool := none
  forceInstall : Option Bool := none
  packageFolders : Option (List PackageFolderArg) := none
  extraFilesToUpdate : Option (List String) := none
deriving Repr

/-- Lookup in a string-keyed JS object modelled as an association list:
`some v` iff the key is present. -/
def lookupKey {α : Type} (m : List (String × α)) (k : String) : Option α :=
  (m.find? (fun e => e.1 == k)).map (·.2)

/-- Assignment `m[k] = v` on a string-keyed JS object: overwrite in place
if the key is present, else append (JS insertion order). -/
def setKey {α : Type} : List (String × α) → String → α → List (String × α)
  | [], k, v => [(k, v)]
  | e :: m, k, v => if e.1 == k then (k, v) :: m else e :: setKey m k v

/-- `joinPath` from the path collaborator (joining with `/`). -/
def joinPath (a b : String) : String := a ++ "/" ++ b

/-- The JS non-null assertion `packageJson.name!` used as an object key:
an `undefined` name would be coerced to the key `"undefined"`. -/
def bangName (o : Option String) : String := o.getD "undefined"

/-- The external collaborators consumed by the core (capability surface
of the specification: filesystem, path utilities, manifest serialization,
`npm`, the extra-file pattern primitive). All are pure functions of the
path/name: the on-disk world outside this run's own writes is stable. -/
structure Env where
  fileExists : String → Bool
  folderExists : String → Bool
  parentFolderPath : String → String
  childFolderPaths : String → List String
  normalizePath : String → String
  readPackageJson : String → PackageJson
  findPackageJsonFile : String → Option String
  npmViewDistTags : String → Option (List (String × String))
  npmInstallExitCode : String → Int
  readFile : String → String
  readLockFile : String → String
  removeLockDependencies : String → List String → String
  stringPropertyMatch : String → String → Option String
  stringPropertyReplace : String → String → String → String

/-- The mutable state of one run: the shared `clonedPackages` cache plus
event logs for every externally visible effect. `processLog` records, per
main-loop iteration, the processed folder together with the changed
dependency and devDependency names. -/
structure RunState where
  clonedPackages : List (String × Option ClonedPackage) := []
  searchCalls : List String := []
  npmViewCalls : List String := []
  packageFolderPathsToVisit : List String := []
  packageFolderPathsVisited : List String := []
  folderPathsToRunNPMInstallIn : List String := []
  manifestWrites : List (String × PackageJson) := []
  lockFileWrites : List (String × String) := []
  installCalls : List String := []
  extraFileWrites : List (String × String × String) := []
  processLog : List (String × List String × List String) := []
  exitCode : Int := 0
  crashed : Bool := false
deriving Repr

/-- The last write recorded for `path` in a write log. -/
def lastWrite {α : Type} (writes : List (String × α)) (path : String) :
    Option α :=
  (writes.reverse.find? (fun w => w.1 == path)).map (·.2)

/-- Write-aware `fileExistsSync`: a file exists if it exists on disk or
has been written during this run. -/
def fileExistsS (env : Env) (st : RunState) (path : String) : Bool :=
  env.fileExists path || st.manifestWrites.any (fun w => w.1 == path) ||
    st.lockFileWrites.any (fun w => w.1 == path) ||
    st.extraFileWrites.any (fun w => w.1 == path)

/-- Write-aware `readPackageJsonFileSync`: the last manifest written at
`path` during this run, else the on-disk manifest. -/
def readPackageJsonS (env : Env) (st : RunState) (path : String) :
    PackageJson :=
  match lastWrite st.manifestWrites path with
  | some pj => pj
  | none => env.readPackageJson path

/-- Write-aware `readPackageLockJsonFileSync`. -/
def readLockFileS (env : Env) (st : RunState) (path : String) : String :=
  match lastWrite st.lockFileWrites path with
  | some c => c
  | none => env.readLockFile path

/-- Write-aware `readFileSync` for the extra-files pass. -/
def readFileS (env : Env) (st : RunState) (path : String) : String :=
  match lastWrite (st.extraFileWrites.map (fun w => (w.1, w.2.2))) path with
  | some c => c
  | none => env.readFile path

/-! ## `findPackage`: the breadth-first folder search -/

/-- The local state of `findPackage`'s search loop: the `visitedFolders`
and `foldersToVisit` arrays and the `result` variable. -/
structure SearchState where
  visitedFolders : List String := []
  foldersToVisit : List String := []
  result : Option ClonedPackage := none
deriving Repr, DecidableEq

/-- `addFolderToVisit`: enqueue a folder unless already visited or
queued (membership by exact path equality). -/
def addFolderToVisit (ss : SearchState) (folderPath : String) : SearchState :=
  if ss.visitedFolders.contains folderPath ||
      ss.foldersToVisit.contains folderPath then ss
  else { ss with foldersToVisit := ss.foldersToVisit ++ [folderPath] }

/-- The seeding of the search queue: the parent folder of a start file,
or the start folder itself. -/
def initialSearchState (env : Env) (st : RunState) (startPath : String) :
    SearchState :=
  let normalizedStartPath := env.normalizePath startPath
  if fileExistsS env st normalizedStartPath then
    { foldersToVisit := [env.parentFolderPath normalizedStartPath] }
  else if env.folderExists normalizedStartPath then
    { foldersToVisit := [normalizedStartPath] }
  else {}

/-- One iteration of `findPackage`'s `while` loop: dequeue a folder, mark
it visited, test its manifest, otherwise enqueue the parent folder and
the parent's child folders. -/
def searchStep (env : Env) (st : RunState) (packageName : String)
    (ss : SearchState) : SearchState :=
  match ss.foldersToVisit with
  | [] => ss
  | folderPath :: rest =>
    let ss1 : SearchState :=
      { ss with visitedFolders := ss.visitedFolders ++ [folderPath],
                foldersToVisit := rest }
    let packageJsonFilePath := joinPath folderPath "package.json"
    let found :=
      fileExistsS env st packageJsonFilePath &&
        (match (readPackageJsonS env st packageJsonFilePath).name with
         | some n => n != "" && n == packageName
         | none => false)
    if found then { ss1 with result := some { path := folderPath } }
    else if ss1.result.isNone then
      let parentFolderPath := env.parentFolderPath folderPath
      if parentFolderPath != "" then
        (env.childFolderPaths parentFolderPath).foldl addFolderToVisit
          (addFolderToVisit ss1 parentFolderPath)
      else ss1
    else ss1

/-- The search loop, driven by fuel (the environment's folder graph is an
arbitrary function, so the model makes the iteration count explicit; the
termination theorem shows any finite closed folder universe bounds it). -/
def searchLoop (env : Env) (st : RunState) (packageName : String) :
    Nat → SearchState → SearchState
  | 0, ss => ss
  | fuel + 1, ss =>
    if ss.foldersToVisit.isEmpty || ss.result.isSome then ss
    else searchLoop env st packageName fuel (searchStep env st packageName ss)

/-- The cache-miss body of `findPackage`: run the breadth-first search
from `startPath`. -/
def findPackageSearch (env : Env) (st : RunState) (fuel : Nat)
    (packageName startPath : String) : Option ClonedPackage :=
  (searchLoop env st packageName fuel (initialSearchState env st startPath)).result

/-- `findPackage` with the shared `clonedPackages` cache: a cache hit
(present key, even with an `undefined` value) short-circuits; a miss runs
the search and stores the result (including `undefined`) under the name.
A performed search is recorded in `searchCalls`. -/
def findPackageM (env : Env) (fuel : Nat) (packageName startPath : String)
    (st : RunState) : Option ClonedPackage × RunState :=
  match lookupKey st.clonedPackages packageName with
  | some cached => (cached, st)
  | none =>
    let result := findPackageSearch env st fuel packageName startPath
    let c := setKey st.clonedPackages packageName result
    (result, { st with clonedPackages := c, searchCalls := st.searchCalls ++ [packageName] })

/-! ## `getDependencyTargetVersion` and `updateDependencies` -/

/-- `getDependencyTargetVersion`: find the dependency's clone; if its
`targetVersion` is falsy, compute it (`file:` path for `local`; for
`latest` query `npm view`, prefix a truthy `latest` tag with `^`, else
fall back to `defaultVersion`) and store it in the cache entry. -/
def getDependencyTargetVersion (env : Env) (fuel : Nat)
    (clonedPackage : ClonedPackage) (dependencyName : String)
    (dependencyType : DepedencyType) (st : RunState) :
    Option String × RunState :=
  match findPackageM env fuel dependencyName clonedPackage.path st with
  | (none, st1) => (none, st1)
  | (some depCP, st1) =>
    if truthy depCP.targetVersion then (depCP.targetVersion, st1)
    else
      match dependencyType with
      | .strLocal =>
        let depCP2 := { depCP with targetVersion := some ("file:" ++ depCP.path) }
        let c := setKey st1.clonedPackages dependencyName (some depCP2)
        (depCP2.targetVersion, { st1 with clonedPackages := c })
      | .latest =>
        let st2 := { st1 with npmViewCalls := st1.npmViewCalls ++ [dependencyName] }
        let distTags := env.npmViewDistTags dependencyName
        let tv0 : Option String := distTags.bind (fun m => lookupKey m "latest")
        let tv : Option String :=
          if truthy tv0 then some ("^" ++ tv0.getD "") else depCP.defaultVersion
        let depCP2 := { depCP with targetVersion := tv }
        let c := setKey st2.clonedPackages dependencyName (some depCP2)
        (depCP2.targetVersion, { st2 with clonedPackages := c })

/-- `contains(clonedPackage.dependenciesToIgnore, name)` (an `undefined`
array contains nothing). -/
def inIgnoreList (ignore : Option (List String)) (name : String) : Bool :=
  (ignore.getD []).contains name

/-- The loop body of `updateDependencies` over the entries of a
dependency map: resolve each non-ignored entry and replace its version
when the resolved target is truthy and differs. Returns the rewritten
map, the changed names in order, and the resulting state. -/
def updateDependenciesList (env : Env) (fuel : Nat)
    (clonedPackage : ClonedPackage) (dependencyType : DepedencyType) :
    List (String × String) → RunState →
      List (String × String) × List String × RunState
  | [], st => ([], [], st)
  | (dependencyName, dependencyVersion) :: rest, st =>
    if inIgnoreList clonedPackage.dependenciesToIgnore dependencyName then
      let (rest', changed, st') :=
        updateDependenciesList env fuel clonedPackage dependencyType rest st
      ((dependencyName, dependencyVersion) :: rest', changed, st')
    else
      let (tv, st1) := getDependencyTargetVersion env fuel clonedPackage
        dependencyName dependencyType st
      match tv with
      | some target =>
        if target != "" && dependencyVersion != target then
          let (rest', changed, st') :=
            updateDependenciesList env fuel clonedPackage dependencyType rest st1
          ((dependencyName, target) :: rest', dependencyName :: changed, st')
        else
          let (rest', changed, st') :=
            updateDependenciesList env fuel clonedPackage dependencyType rest st1
          ((dependencyName, dependencyVersion) :: rest', changed, st')
      | none =>
        let (rest', changed, st') :=
          updateDependenciesList env fuel clonedPackage dependencyType rest st1
        ((dependencyName, dependencyVersion) :: rest', changed, st')

/-- `updateDependencies`: an `undefined` dependency map is left alone. -/
def updateDependencies (env : Env) (fuel : Nat)
    (clonedPackage : ClonedPackage) (dependencies : Option (List (String × String)))
    (dependencyType : DepedencyType) (st : RunState) :
    Option (List (String × String)) × List String × RunState :=
  match dependencies with
  | none => (none, [], st)
  | some deps =>
    let (deps', changed, st') :=
      updateDependenciesList env fuel clonedPackage dependencyType deps st
    (some deps', changed, st')

/-! ## `changeClonedDependenciesTo`: the orchestrator -/

/-- The initialization loop of `changeClonedDependenciesTo`: for every
requested path, locate its `package.json` (aborting the whole loop with
exit code 1 if one is missing), enqueue the containing folder and
register a `ClonedPackage` (carrying the matching `packageFolders`
configuration, if any) under the manifest's name. Runs before any write,
so reads are the plain environment's. -/
def addPackagePaths (env : Env) (options : ChangeClonedDependenciesToOptions) :
    List String → RunState → RunState
  | [], st => st
  | packagePathToAdd :: rest, st =>
    match env.findPackageJsonFile packagePathToAdd with
    | none => { st with exitCode := 1 }
    | some packageJsonFilePath =>
      let packageFolderPath := env.parentFolderPath packageJsonFilePath
      let packageJson := env.readPackageJson packageJsonFilePath
      let packageName := bangName packageJson.name
      let clonedPackage0 : ClonedPackage := { path := packageFolderPath }
      let packageFolder? := (options.packageFolders.getD []).find?
        (fun pf => pf.getPath == packagePathToAdd)
      let clonedPackage :=
        match packageFolder? with
        | some (.folder f) =>
          { clonedPackage0 with defaultVersion := f.defaultVersion,
                                dependenciesToIgnore := f.dependenciesToIgnore,
                                runNPMInstall := f.runNPMInstall }
        | _ => clonedPackage0
      let c := setKey st.clonedPackages packageName (some clonedPackage)
      addPackagePaths env options rest
        { st with
            packageFolderPathsToVisit := st.packageFolderPathsToVisit ++ [packageFolderPath],
            clonedPackages := c }

/-- The recursive-propagation step at the end of a main-loop iteration:
enqueue the folder of every referenced dependency that has a truthy
cache entry, is not yet `updated`, and is neither visited nor queued. -/
def enqueueClonedDependency (st : RunState) (dependencyName : String) : RunState :=
  match (lookupKey st.clonedPackages dependencyName).join with
  | none => st
  | some clonedDependency =>
    let clonedDependencyFolderPath := clonedDependency.path
    if !(clonedDependency.updated.getD false) &&
        !st.packageFolderPathsVisited.contains clonedDependencyFolderPath &&
        !st.packageFolderPathsToVisit.contains clonedDependencyFolderPath then
      { st with packageFolderPathsToVisit :=
          st.packageFolderPathsToVisit ++ [clonedDependencyFolderPath] }
    else st

/-- The body of one main-loop iteration after the dequeue: read the
folder's manifest, mark its cache entry `updated`, rewrite its dependency
and devDependency maps, log the iteration, write the manifest (and
strip-and-write the lock file, when one exists) when anything changed,
and schedule the install. Returns the resulting state together with the
(rewritten) manifest, whose keys drive the recursive step. -/
def processFolder (env : Env) (sfuel : Nat) (dependencyType : DepedencyType)
    (forceInstall : Bool) (packageFolderPath : String) (st : RunState) :
    RunState × PackageJson :=
  let packageJsonFilePath := joinPath packageFolderPath "package.json"
  let packageJson := readPackageJsonS env st packageJsonFilePath
  let packageName := bangName packageJson.name
  -- `clonedPackages[packageName]!`: the non-null assertion of the
  -- source. A missing (or cached-absent) entry makes the subsequent
  -- `clonedPackage.updated = true` throw a TypeError, aborting the run:
  -- modelled by the `crashed` flag.
  match (lookupKey st.clonedPackages packageName).join with
  | none => ({ st with crashed := true }, packageJson)
  | some clonedPackage0 =>
  let clonedPackage := { clonedPackage0 with updated := some true }
  let st1 : RunState :=
    { st with clonedPackages := setKey st.clonedPackages packageName (some clonedPackage) }
  let r1 := updateDependencies env sfuel clonedPackage packageJson.dependencies dependencyType st1
  let r2 := updateDependencies env sfuel clonedPackage packageJson.devDependencies dependencyType r1.2.2
  let dependenciesChanged := r1.2.1
  let devDependenciesChanged := r2.2.1
  let packageJson' := { packageJson with dependencies := r1.1, devDependencies := r2.1 }
  let st3 : RunState :=
    { r2.2.2 with processLog :=
        r2.2.2.processLog ++ [(packageFolderPath, dependenciesChanged, devDependenciesChanged)] }
  let st4 : RunState :=
    if dependenciesChanged.isEmpty && devDependenciesChanged.isEmpty then
      if clonedPackage.runNPMInstall != some false && forceInstall then
        { st3 with folderPathsToRunNPMInstallIn :=
            st3.folderPathsToRunNPMInstallIn ++ [packageFolderPath] }
      else st3
    else
      let st3a : RunState :=
        { st3 with manifestWrites := st3.manifestWrites ++ [(packageJsonFilePath, packageJson')] }
      let packageLockJsonFilePath := joinPath packageFolderPath "package-lock.json"
      let st3b : RunState :=
        if fileExistsS env st3a packageLockJsonFilePath then
          { st3a with lockFileWrites := st3a.lockFileWrites ++
              [(packageLockJsonFilePath,
                env.removeLockDependencies (readLockFileS env st3a packageLockJsonFilePath)
                  (dependenciesChanged ++ devDependenciesChanged))] }
        else st3a
      if clonedPackage.runNPMInstall != some false then
        { st3b with folderPathsToRunNPMInstallIn :=
            st3b.folderPathsToRunNPMInstallIn ++ [packageFolderPath] }
      else st3b
  (st4, packageJson')

/-- One iteration of the orchestrator's main loop: dequeue a folder, mark
it visited, process it (`processFolder`), and, when recursive propagation
is enabled, enqueue every referenced cloned dependency that is neither
updated, visited nor queued. -/
def mainLoopStep (env : Env) (sfuel : Nat) (dependencyType : DepedencyType)
    (recursive forceInstall : Bool) (st : RunState) : RunState :=
  match st.packageFolderPathsToVisit with
  | [] => st
  | packageFolderPath :: rest =>
    let st1 : RunState := { st with
      packageFolderPathsToVisit := rest,
      packageFolderPathsVisited := st.packageFolderPathsVisited ++ [packageFolderPath] }
    let r := processFolder env sfuel dependencyType forceInstall packageFolderPath st1
    if r.1.crashed then r.1
    else if recursive then
      let allDependencyNames :=
        (r.2.dependencies.getD []).map (·.1) ++ (r.2.devDependencies.getD []).map (·.1)
      allDependencyNames.foldl enqueueClonedDependency r.1
    else r.1

/-- The main loop, driven by fuel (the cache, and with it the set of
folders that can be enqueued, grows unboundedly over an arbitrary
environment, so the iteration count is explicit). -/
def mainLoop (env : Env) (sfuel : Nat) (dependencyType : DepedencyType)
    (recursive forceInstall : Bool) : Nat → RunState → RunState
  | 0, st => st
  | fuel + 1, st =>
    if st.packageFolderPathsToVisit.isEmpty || st.exitCode != 0 || st.crashed then st
    else mainLoop env sfuel dependencyType recursive forceInstall fuel
      (mainLoopStep env sfuel dependencyType recursive forceInstall st)

/-- The post-loop install pass: run `npm install` in every scheduled
folder in order, each invocation's exit code replacing the run's, and
stop at the first non-zero code. -/
def runInstalls (env : Env) : List String → RunState → RunState
  | [], st => st
  | folderPath :: rest, st =>
    let code := env.npmInstallExitCode folderPath
    let st := { st with installCalls := st.installCalls ++ [folderPath],
                        exitCode := code }
    if code != 0 then st else runInstalls env rest st

/-- The rewrite of one extra file's contents: for every cache entry (in
insertion order) with a truthy `targetVersion`, if the `StringProperty`
pattern for that name matches with a captured version different from the
target, replace it. -/
def updateExtraFileContents (env : Env)
    (clonedPackages : List (String × Option ClonedPackage))
    (contents : String) : String :=
  clonedPackages.foldl
    (fun updated entry =>
      match entry.2 with
      | some clonedPackage =>
        if truthy clonedPackage.targetVersion then
          match env.stringPropertyMatch entry.1 updated with
          | some captured =>
            if captured != clonedPackage.targetVersion.getD "" then
              env.stringPropertyReplace entry.1 (clonedPackage.targetVersion.getD "") updated
            else updated
          | none => updated
        else updated
      | none => updated)
    contents

/-- The auxiliary extra-files pass: abort with exit code 2 at the first
missing file; otherwise rewrite and write back only when the contents
changed (the write log records the original and updated contents). -/
def updateExtraFiles (env : Env) : List String → RunState → RunState
  | [], st => st
  | extraFileToUpdate :: rest, st =>
    if !(fileExistsS env st extraFileToUpdate) then
      { st with exitCode := 2 }
    else
      let originalFileContents := readFileS env st extraFileToUpdate
      let updatedFileContents :=
        updateExtraFileContents env st.clonedPackages originalFileContents
      let st :=
        if originalFileContents == updatedFileContents then st
        else { st with extraFileWrites :=
            st.extraFileWrites ++ [(extraFileToUpdate, originalFileContents, updatedFileContents)] }
      updateExtraFiles env rest st

/-- The list of requested package paths: the `packagePath` argument
followed by the paths of `options.packageFolders`. -/
def packagePathsToAdd (packagePath : String)
    (options : ChangeClonedDependenciesToOptions) : List String :=
  packagePath :: (options.packageFolders.getD []).map PackageFolderArg.getPath

/-- `changeClonedDependenciesTo`: initialization, main loop, install
pass, and (only on exit code 0, when configured) the extra-files pass.
Returns the exit code together with the final run state. -/
def changeClonedDependenciesTo (env : Env) (sfuel lfuel : Nat)
    (packagePath : String) (dependencyType : DepedencyType)
    (options : ChangeClonedDependenciesToOptions) : Int × RunState :=
  let recursive := options.recursive.getD true
  let forceInstall := options.forceInstall.getD false
  let st := addPackagePaths env options (packagePathsToAdd packagePath options) {}
  let st := mainLoop env sfuel dependencyType recursive forceInstall lfuel st
  -- a TypeError thrown inside the loop propagates: nothing below runs
  if st.crashed then (st.exitCode, st)
  else
    let st := runInstalls env st.folderPathsToRunNPMInstallIn st
    let st :=
      if st.exitCode == 0 && options.extraFilesToUpdate.isSome then
        updateExtraFiles env (options.extraFilesToUpdate.getD []) st
      else st
    (st.exitCode, st)

/-! ## Concrete sample environments (used by witnesses and counterexamples)

A miniature workspace under a root folder `r` holding three cloned
packages `A` (at `r/a`, depending on `C`), `B` (at `r/b`, depending on
`C`) and `C` (at `r/c`, no dependencies, not published: `npm view`
reports no dist-tags). -/

def sampleEnv : Env where
  fileExists := fun p =>
    p == "r/a/package.json" || p == "r/b/package.json" || p == "r/c/package.json"
  folderExists := fun p => p == "r" || p == "r/a" || p == "r/b" || p == "r/c"
  parentFolderPath := fun p =>
    if p == "r/a" || p == "r/b" || p == "r/c" then "r"
    else if p == "r/a/package.json" then "r/a"
    else if p == "r/b/package.json" then "r/b"
    else if p == "r/c/package.json" then "r/c"
    else ""
  childFolderPaths := fun p => if p == "r" then ["r/a", "r/b", "r/c"] else []
  normalizePath := fun p => p
  readPackageJson := fun p =>
    if p == "r/a/package.json" then
      { name := some "A", dependencies := some [("C", "1.0.0")] }
    else if p == "r/b/package.json" then
      { name := some "B", dependencies := some [("C", "1.0.0")] }
    else if p == "r/c/package.json" then { name := some "C" }
    else {}
  findPackageJsonFile := fun p =>
    if p == "r/a" then some "r/a/package.json"
    else if p == "r/b" then some "r/b/package.json"
    else if p == "r/c" then some "r/c/package.json"
    else none
  npmViewDistTags := fun _ => none
  npmInstallExitCode := fun _ => 0
  readFile := fun _ => ""
  readLockFile := fun _ => ""
  removeLockDependencies := fun c _ => c
  stringPropertyMatch := fun _ _ => none
  stringPropertyReplace := fun _ _ c => c

/-- `sampleEnv` with a published but empty `latest` dist-tag for `C`. -/
def sampleEnvEmptyTag : Env :=
  { sampleEnv with
      npmViewDistTags := fun n => if n == "C" then some [("latest", "")] else none }

/-- A run state whose cache already holds a clone of `C` carrying a
configured default version and no target version yet. -/
def sampleStateC : RunState :=
  { clonedPackages := [("C", some { path := "r/c", defaultVersion := some "9.9.9" })] }

/-! ## Derived notions used by the write-uniqueness analysis -/

/-- The manifest view determined by a write log alone (`readPackageJsonS`
factored through the `manifestWrites` field). -/
def readManifestW (env : Env) (mws : List (String × PackageJson)) (path : String) :
    PackageJson :=
  match lastWrite mws path with
  | some pj => pj
  | none => env.readPackageJson path

/-- The canonical value `getDependencyTargetVersion` stores into a cache
entry whose `targetVersion` is falsy: the `file:` path for `local`, the
`^`-prefixed truthy `latest` tag or the entry's `defaultVersion` for
`latest`. Depends only on the entry's `path` and `defaultVersion`. -/
def canon (env : Env) (ty : DepedencyType) (n : String) (d : ClonedPackage) :
    Option String :=
  match ty with
  | .strLocal => some ("file:" ++ d.path)
  | .latest =>
    let tv0 : Option String := (env.npmViewDistTags n).bind (fun m => lookupKey m "latest")
    if truthy tv0 then some ("^" ++ tv0.getD "") else d.defaultVersion

/-- The fields of a cache entry that the main loop never mutates. -/
def SameCore (d d' : ClonedPackage) : Prop :=
  d'.path = d.path ∧ d'.defaultVersion = d.defaultVersion ∧
  d'.dependenciesToIgnore = d.dependenciesToIgnore ∧ d'.runNPMInstall = d.runNPMInstall

/-- A dependency-map entry `(n, v)` that a (re-)processing pass would
leave unchanged in cache `c`: it is ignored, or its name is cached as
absent, or the cached clone's target version is truthy and equal to `v`,
or both the stored and the canonically recomputed target versions are
falsy (so the update guard fails). -/
def EntryUnchanged (env : Env) (ty : DepedencyType)
    (c : List (String × Option ClonedPackage)) (ignore : Option (List String))
    (n v : String) : Prop :=
  inIgnoreList ignore n = true ∨
  lookupKey c n = some none ∨
  (∃ d, lookupKey c n = some (some d) ∧
    ((truthy d.targetVersion = true ∧ d.targetVersion = some v) ∨
     (truthy d.targetVersion = false ∧ truthy (canon env ty n d) = false ∧
      d.targetVersion = canon env ty n d)))

/-- How the `clonedPackages` cache can evolve across main-loop
operations: per key, the entry is unchanged, or freshly inserted, or a
present clone whose core fields are preserved and whose `targetVersion`
is either kept or (when falsy) replaced by its canonical value. -/
def CacheEvol (env : Env) (ty : DepedencyType)
    (c c' : List (String × Option ClonedPackage)) : Prop :=
  ∀ k, lookupKey c' k = lookupKey c k ∨
    (lookupKey c k = none ∧ (lookupKey c' k).isSome = true) ∨
    (∃ d d', lookupKey c k = some (some d) ∧ lookupKey c' k = some (some d') ∧
      SameCore d d' ∧
      (d'.targetVersion = d.targetVersion ∨
        (truthy d.targetVersion = false ∧ d'.targetVersion = canon env ty k d)))

/-- A folder whose current manifest would be processed without any
dependency change: its manifest's name has a present cache entry and
every dependency and devDependency entry is `EntryUnchanged`. -/
def FolderCoherent (env : Env) (ty : DepedencyType)
    (mws : List (String × PackageJson))
    (c : List (String × Option ClonedPackage)) (fp : String) : Prop :=
  ∃ d, (lookupKey c
      (bangName (readManifestW env mws (joinPath fp "package.json")).name)).join = some d ∧
    ∀ e ∈ ((readManifestW env mws (joinPath fp "package.json")).dependencies.getD [] ++
        (readManifestW env mws (joinPath fp "package.json")).devDependencies.getD []),
      EntryUnchanged env ty c d.dependenciesToIgnore e.1 e.2

/-- The write-uniqueness invariant of the main loop: manifest and lock
write paths are duplicate-free, every lock write is tied to a manifest
write of the same folder, and every written folder is coherent (so a
revisit would change nothing). -/
def MainInv (env : Env) (ty : DepedencyType)
    (mws : List (String × PackageJson)) (lws : List (String × String))
    (c : List (String × Option ClonedPackage)) : Prop :=
  (mws.map Prod.fst).Nodup ∧
  (lws.map Prod.fst).Nodup ∧
  (∀ w ∈ lws, ∃ fp, w.1 = joinPath fp "package-lock.json" ∧
      joinPath fp "package.json" ∈ mws.map Prod.fst) ∧
  (∀ fp, joinPath fp "package.json" ∈ mws.map Prod.fst →
      FolderCoherent env ty mws c fp)

/-- Every write is justified by a process-log iteration of the same
folder that changed at least one dependency. -/
def WriteLogged (st : RunState) : Prop :=
  (∀ w ∈ st.manifestWrites, ∃ e ∈ st.processLog,
      w.1 = joinPath e.1 "package.json" ∧ (e.2.1 ≠ [] ∨ e.2.2 ≠ [])) ∧
  (∀ w ∈ st.lockFileWrites, ∃ e ∈ st.processLog,
      w.1 = joinPath e.1 "package-lock.json" ∧ (e.2.1 ≠ [] ∨ e.2.2 ≠ []))

/-- The `updated`-marked cache entry `processFolder` installs for the
processed folder's package (`clonedPackage` in the source). -/
def pfCP (d0 : ClonedPackage) : ClonedPackage := { d0 with updated := some true }

/-- The state in which `processFolder` runs its two update passes: the
dequeued state with the folder's cache entry marked `updated`. -/
def pfSt1 (env : Env) (fp : String) (st : RunState) (d0 : ClonedPackage) :
    RunState :=
  let name := bangName (readPackageJsonS env st (joinPath fp "package.json")).name
  { st with clonedPackages := setKey st.clonedPackages name (some (pfCP d0)) }

/-- The dependencies pass of `processFolder`. -/
def pfR1 (env : Env) (sfuel : Nat) (ty : DepedencyType) (fp : String)
    (st : RunState) (d0 : ClonedPackage) :
    Option (List (String × String)) × List String × RunState :=
  updateDependencies env sfuel (pfCP d0)
    (readPackageJsonS env st (joinPath fp "package.json")).dependencies ty
    (pfSt1 env fp st d0)

/-- The devDependencies pass of `processFolder`. -/
def pfR2 (env : Env) (sfuel : Nat) (ty : DepedencyType) (fp : String)
    (st : RunState) (d0 : ClonedPackage) :
    Option (List (String × String)) × List String × RunState :=
  updateDependencies env sfuel (pfCP d0)
    (readPackageJsonS env st (joinPath fp "package.json")).devDependencies ty
    (pfR1 env sfuel ty fp st d0).2.2

/-- The rewritten manifest `processFolder` produces. -/
def pfPJ (env : Env) (sfuel : Nat) (ty : DepedencyType) (fp : String)
    (st : RunState) (d0 : ClonedPackage) : PackageJson :=
  { readPackageJsonS env st (joinPath fp "package.json") with
      dependencies := (pfR1 env sfuel ty fp st d0).1,
      devDependencies := (pfR2 env sfuel ty fp st d0).1 }

/-- `processFolder`'s result in the non-crashing case, phrased through the
named components above (see `processFolder_eq`). -/
def pfResult (env : Env) (sfuel : Nat) (ty : DepedencyType) (fi : Bool)
    (fp : String) (st : RunState) (d0 : ClonedPackage) :
    RunState × PackageJson :=
  let r1 := pfR1 env sfuel ty fp st d0
  let r2 := pfR2 env sfuel ty fp st d0
  let packageJson' := pfPJ env sfuel ty fp st d0
  let st3 : RunState := { r2.2.2 with processLog :=
      r2.2.2.processLog ++ [(fp, r1.2.1, r2.2.1)] }
  let st4 : RunState :=
    if r1.2.1.isEmpty && r2.2.1.isEmpty then
      if (pfCP d0).runNPMInstall != some false && fi then
        { st3 with folderPathsToRunNPMInstallIn :=
            st3.folderPathsToRunNPMInstallIn ++ [fp] }
      else st3
    else
      let st3a : RunState :=
        { st3 with manifestWrites := st3.manifestWrites ++
            [(joinPath fp "package.json", packageJson')] }
      let st3b : RunState :=
        if fileExistsS env st3a (joinPath fp "package-lock.json") then
          { st3a with lockFileWrites := st3a.lockFileWrites ++
              [(joinPath fp "package-lock.json",
                env.removeLockDependencies
                  (readLockFileS env st3a (joinPath fp "package-lock.json"))
                  (r1.2.1 ++ r2.2.1))] }
        else st3a
      if (pfCP d0).runNPMInstall != some false then
        { st3b with folderPathsToRunNPMInstallIn :=
            st3b.folderPathsToRunNPMInstallIn ++ [fp] }
      else st3b
  (st4, packageJson')

/-! ## Association-list lemmas -/

theorem lookupKey_cons {α : Type} (e : String × α) (m : List (String × α)) (k : String) :
    lookupKey (e :: m) k = if e.1 == k then some e.2 else lookupKey m k := by
  simp only [lookupKey, List.find?_cons]
  cases h : e.1 == k <;> simp [h]

theorem lookupKey_setKey_self {α : Type} (m : List (String × α)) (k : String) (v : α) :
    lookupKey (setKey m k v) k = some v := by
  induction m with
  | nil => simp [setKey, lookupKey_cons]
  | cons e m ih =>
    cases h : e.1 == k
    · simp [setKey, h, lookupKey_cons, ih]
    · simp [setKey, h, lookupKey_cons]

theorem lookupKey_setKey_ne {α : Type} (m : List (String × α)) {k k' : String}
    (v : α) (h : k' ≠ k) : lookupKey (setKey m k v) k' = lookupKey m k' := by
  induction m with
  | nil => simp [setKey, lookupKey_cons, Ne.symm h, lookupKey]
  | cons e m ih =>
    cases he : e.1 == k
    · simp [setKey, he, lookupKey_cons, ih]
    · have : e.1 = k := by simpa using he
      simp [setKey, he, lookupKey_cons, this, Ne.symm h]

/-! ## Frame lemmas: the resolution operations only touch the cache and
the query logs -/

/-- The fields of a `RunState` that `findPackage`,
`getDependencyTargetVersion` and `updateDependencies` never modify. -/
structure ResolvePreserves (st st' : RunState) : Prop where
  toVisit : st'.packageFolderPathsToVisit = st.packageFolderPathsToVisit
  visited : st'.packageFolderPathsVisited = st.packageFolderPathsVisited
  installFolders : st'.folderPathsToRunNPMInstallIn = st.folderPathsToRunNPMInstallIn
  manifests : st'.manifestWrites = st.manifestWrites
  locks : st'.lockFileWrites = st.lockFileWrites
  installs : st'.installCalls = st.installCalls
  extras : st'.extraFileWrites = st.extraFileWrites
  plog : st'.processLog = st.processLog
  exit : st'.exitCode = st.exitCode

theorem ResolvePreserves.refl (st : RunState) : ResolvePreserves st st :=
  ⟨rfl, rfl, rfl, rfl, rfl, rfl, rfl, rfl, rfl⟩

theorem ResolvePreserves.comp {a b c : RunState}
    (h1 : ResolvePreserves a b) (h2 : ResolvePreserves b c) : ResolvePreserves a c :=
  ⟨h2.toVisit.trans h1.toVisit, h2.visited.trans h1.visited,
   h2.installFolders.trans h1.installFolders, h2.manifests.trans h1.manifests,
   h2.locks.trans h1.locks, h2.installs.trans h1.installs,
   h2.extras.trans h1.extras, h2.plog.trans h1.plog, h2.exit.trans h1.exit⟩

theorem findPackageM_preserves (env : Env) (fuel : Nat) (n sp : String)
    (st : RunState) : ResolvePreserves st (findPackageM env fuel n sp st).2 := by
  unfold findPackageM
  cases lookupKey st.clonedPackages n
  · exact ⟨rfl, rfl, rfl, rfl, rfl, rfl, rfl, rfl, rfl⟩
  · exact ⟨rfl, rfl, rfl, rfl, rfl, rfl, rfl, rfl, rfl⟩

theorem getDependencyTargetVersion_preserves (env : Env) (fuel : Nat)
    (cp : ClonedPackage) (n : String) (ty : DepedencyType) (st : RunState) :
    ResolvePreserves st (getDependencyTargetVersion env fuel cp n ty st).2 := by
  have hfp := findPackageM_preserves env fuel n cp.path st
  unfold getDependencyTargetVersion
  rcases hr : findPackageM env fuel n cp.path st with ⟨r, st1⟩
  rw [hr] at hfp
  rcases r with _ | depCP
  · exact hfp
  · simp only
    cases truthy depCP.targetVersion
    · cases ty
      · exact hfp.comp ⟨rfl, rfl, rfl, rfl, rfl, rfl, rfl, rfl, rfl⟩
      · exact hfp.comp ⟨rfl, rfl, rfl, rfl, rfl, rfl, rfl, rfl, rfl⟩
    · simpa using hfp

theorem updateDependenciesList_preserves (env : Env) (fuel : Nat)
    (cp : ClonedPackage) (ty : DepedencyType) (deps : List (String × String))
    (st : RunState) :
    ResolvePreserves st (updateDependenciesList env fuel cp ty deps st).2.2 := by
  induction deps generalizing st with
  | nil => exact ResolvePreserves.refl st
  | cons e rest ih =>
    rcases e with ⟨n, v⟩
    by_cases hig : inIgnoreList cp.dependenciesToIgnore n
    · simpa [updateDependenciesList, hig] using ih st
    · have hgd := getDependencyTargetVersion_preserves env fuel cp n ty st
      rcases hr : getDependencyTargetVersion env fuel cp n ty st with ⟨tv, st1⟩
      rw [hr] at hgd
      rcases tv with _ | target
      · simpa [updateDependenciesList, hig, hr] using hgd.comp (ih st1)
      · by_cases hch : target != "" && v != target
        · simpa [updateDependenciesList, hig, hr, hch] using hgd.comp (ih st1)
        · simpa [updateDependenciesList, hig, hr, hch] using hgd.comp (ih st1)

theorem updateDependencies_preserves (env : Env) (fuel : Nat)
    (cp : ClonedPackage) (deps : Option (List (String × String)))
    (ty : DepedencyType) (st : RunState) :
    ResolvePreserves st (updateDependencies env fuel cp deps ty st).2.2 := by
  cases deps with
  | none => exact ResolvePreserves.refl st
  | some l =>
    simpa [updateDependencies] using updateDependenciesList_preserves env fuel cp ty l st

/-! ## C6: `findPackage` cache semantics -/

/-- C6: after `findPackage` has been called for a name, the shared cache
contains an entry for that name holding the returned result (present or
absent); any call that finds the name already cached returns the cached
entry with the run state unchanged (in particular no folder search and no
cache update happen, and a name cached as absent yields absent); hence
every later call for the same name returns the first call's result. -/
theorem findPackage_cache_semantics (env : Env) (fuel : Nat) (n sp : String)
    (st : RunState) :
    (lookupKey (findPackageM env fuel n sp st).2.clonedPackages n =
        some (findPackageM env fuel n sp st).1) ∧
    (∀ cached, lookupKey st.clonedPackages n = some cached →
      ∀ fuel2 sp2, findPackageM env fuel2 n sp2 st = (cached, st)) ∧
    (∀ fuel2 sp2,
      findPackageM env fuel2 n sp2 (findPackageM env fuel n sp st).2 =
        ((findPackageM env fuel n sp st).1, (findPackageM env fuel n sp st).2)) := by
  cases h : lookupKey st.clonedPackages n with
  | some cached =>
    refine ⟨?_, ?_, ?_⟩
    · simp [findPackageM, h]
    · intro cached' hc fuel2 sp2
      cases hc
      simp [findPackageM, h]
    · intro fuel2 sp2
      simp [findPackageM, h]
  | none =>
    refine ⟨?_, ?_, ?_⟩
    · simp [findPackageM, h, lookupKey_setKey_self]
    · intro cached' hc
      simp at hc
    · intro fuel2 sp2
      have hset : lookupKey (findPackageM env fuel n sp st).2.clonedPackages n =
          some (findPackageM env fuel n sp st).1 := by
        simp [findPackageM, h, lookupKey_setKey_self]
      rw [findPackageM, hset]

/-- C6 witness: a cached clone of `C` is returned verbatim, with the run
state untouched, by a later `findPackage` call. -/
theorem findPackage_cache_semantics_witness :
    findPackageM sampleEnv 0 "C" "anywhere" sampleStateC =
      (some { path := "r/c", defaultVersion := some "9.9.9" }, sampleStateC) :=
  (findPackage_cache_semantics sampleEnv 0 "C" "anywhere" sampleStateC).2.1
    (some { path := "r/c", defaultVersion := some "9.9.9" }) (by decide) 0 "anywhere"

/-! ## C1: memoization of `targetVersion` -/

/-- C1 (amended): once a cache entry's `targetVersion` holds a truthy
(nonempty) string, any later resolution of that name — with any
dependency type — returns exactly that string and leaves the run state
unchanged: no `npm view` query, no cache update. (The claim's
unconditional "at most one `npmView` per name" fails when a `latest`
resolution yields no truthy version; see the counterexample.) -/
theorem targetVersion_memoized (env : Env) (fuel : Nat) (cp : ClonedPackage)
    (n : String) (ty : DepedencyType) (st : RunState) (d : ClonedPackage)
    (h1 : lookupKey st.clonedPackages n = some (some d))
    (h2 : truthy d.targetVersion = true) :
    getDependencyTargetVersion env fuel cp n ty st = (d.targetVersion, st) := by
  simp [getDependencyTargetVersion, findPackageM, h1, h2]

/-- C1 witness: a cached `^1.2.3` target version is returned unchanged,
with the state untouched, when the same name is resolved again. -/
theorem targetVersion_memoized_witness :
    getDependencyTargetVersion sampleEnv 0 { path := "r/a" } "C" DepedencyType.latest
        { clonedPackages := [("C", some { path := "r/c", targetVersion := some "^1.2.3" })] } =
      (some "^1.2.3",
        { clonedPackages := [("C", some { path := "r/c", targetVersion := some "^1.2.3" })] }) :=
  targetVersion_memoized sampleEnv 0 { path := "r/a" } "C" DepedencyType.latest
    { clonedPackages := [("C", some { path := "r/c", targetVersion := some "^1.2.3" })] }
    { path := "r/c", targetVersion := some "^1.2.3" } (by decide) (by decide)

/-- C1 counterexample: in a run where packages `A` and `B` (both
processed by the main loop) each depend on `C` with dependency type
`latest`, and `C`'s clone is found but has no `latest` dist-tag and no
default version, `npm view` is invoked twice for the single name `C` —
refuting "the external registry query is invoked at most once for that
name during the run". -/
theorem npmView_queried_twice_for_unresolvable_name :
    (changeClonedDependenciesTo sampleEnv 10 10 "r/a" DepedencyType.latest
        { packageFolders := some [PackageFolderArg.str "r/b"] }).2.npmViewCalls
      = ["C", "C"] ∧
    (changeClonedDependenciesTo sampleEnv 10 10 "r/a" DepedencyType.latest
        { packageFolders := some [PackageFolderArg.str "r/b"] }).2.packageFolderPathsVisited
      = ["r/a", "r/b", "r/c"] := by decide

/-! ## C4: the `latest` resolution rule -/

/-- C4 (amended): resolving a dependency with type `latest` whose clone
is cached and whose `targetVersion` is not yet truthy yields: `"^" ++ tag`
when the registry reports a truthy (nonempty) `latest` tag; otherwise the
clone's configured `defaultVersion`. Whenever the resolved value is
absent or empty, the dependency's manifest entry is left unchanged and
not reported as changed. (As stated the claim fails for an empty-string
`latest` tag, which falls back to `defaultVersion` instead of being
prefixed with `^`; see the counterexample.) -/
theorem latest_resolution_value (env : Env) (fuel : Nat) (cp : ClonedPackage)
    (n : String) (st : RunState) (d : ClonedPackage) (v : String)
    (h1 : lookupKey st.clonedPackages n = some (some d))
    (h2 : truthy d.targetVersion = false) :
    ((getDependencyTargetVersion env fuel cp n DepedencyType.latest st).1 =
      (if truthy ((env.npmViewDistTags n).bind (fun m => lookupKey m "latest")) then
        some ("^" ++ (((env.npmViewDistTags n).bind (fun m => lookupKey m "latest")).getD ""))
      else d.defaultVersion)) ∧
    (truthy (getDependencyTargetVersion env fuel cp n DepedencyType.latest st).1 = false →
      (updateDependenciesList env fuel cp DepedencyType.latest [(n, v)] st).1 = [(n, v)] ∧
      (updateDependenciesList env fuel cp DepedencyType.latest [(n, v)] st).2.1 = []) := by
  have hval : (getDependencyTargetVersion env fuel cp n DepedencyType.latest st).1 =
      (if truthy ((env.npmViewDistTags n).bind (fun m => lookupKey m "latest")) then
        some ("^" ++ (((env.npmViewDistTags n).bind (fun m => lookupKey m "latest")).getD ""))
      else d.defaultVersion) := by
    simp only [getDependencyTargetVersion, findPackageM, h1, h2]
    split <;> simp_all
  refine ⟨hval, ?_⟩
  intro hfal
  by_cases hig : inIgnoreList cp.dependenciesToIgnore n
  · constructor <;> simp [updateDependenciesList, hig]
  · rcases hr : getDependencyTargetVersion env fuel cp n DepedencyType.latest st with ⟨tv, st1⟩
    rw [hr] at hfal
    rcases tv with _ | target
    · constructor <;> simp [updateDependenciesList, hig, hr]
    · have ht : (target != "") = false := by simpa [truthy] using hfal
      constructor <;> simp [updateDependenciesList, hig, hr, ht]

/-- C4 witness: with no dist-tags reported for `C` and a configured
default version `9.9.9`, resolution yields the default and (being truthy)
nothing here; with no default it would be absent — exercised: the
resolved value for `C` is `9.9.9` and an already-empty resolution leaves
the entry unchanged. -/
theorem latest_resolution_value_witness :
    (getDependencyTargetVersion sampleEnv 0 { path := "r/a" } "C"
        DepedencyType.latest sampleStateC).1 = some "9.9.9" :=
  ((latest_resolution_value sampleEnv 0 { path := "r/a" } "C" sampleStateC
      { path := "r/c", defaultVersion := some "9.9.9" } "1.0.0"
      (by decide) (by decide)).1).trans (by decide)

/-- C4 counterexample: the registry reports a `latest` dist-tag whose
version string is empty; the claim says the target version must then be
that tag prefixed with `^` (that is, `"^"`), but the code falls back to
the clone's configured `defaultVersion` `9.9.9`. -/
theorem empty_latest_tag_uses_defaultVersion :
    (getDependencyTargetVersion sampleEnvEmptyTag 0 { path := "r/a" } "C"
        DepedencyType.latest sampleStateC).1 = some "9.9.9" ∧
    (getDependencyTargetVersion sampleEnvEmptyTag 0 { path := "r/a" } "C"
        DepedencyType.latest sampleStateC).1 ≠ some ("^" ++ "") := by decide

/-! ## C3: fail-fast initialization -/

theorem addPackagePaths_frame (env : Env) (o : ChangeClonedDependenciesToOptions)
    (l : List String) (st : RunState) :
    (addPackagePaths env o l st).packageFolderPathsVisited = st.packageFolderPathsVisited ∧
    (addPackagePaths env o l st).manifestWrites = st.manifestWrites ∧
    (addPackagePaths env o l st).lockFileWrites = st.lockFileWrites ∧
    (addPackagePaths env o l st).folderPathsToRunNPMInstallIn = st.folderPathsToRunNPMInstallIn ∧
    (addPackagePaths env o l st).installCalls = st.installCalls ∧
    (addPackagePaths env o l st).extraFileWrites = st.extraFileWrites ∧
    (addPackagePaths env o l st).processLog = st.processLog ∧
    (addPackagePaths env o l st).crashed = st.crashed := by
  induction l generalizing st with
  | nil => exact ⟨rfl, rfl, rfl, rfl, rfl, rfl, rfl, rfl⟩
  | cons q rest ih =>
    cases h : env.findPackageJsonFile q
    · simp [addPackagePaths, h]
    · simp only [addPackagePaths, h]
      exact ih _

theorem addPackagePaths_exit_of_missing (env : Env)
    (o : ChangeClonedDependenciesToOptions) (l : List String) :
    ∀ st : RunState, (∃ p ∈ l, env.findPackageJsonFile p = none) →
      (addPackagePaths env o l st).exitCode = 1 := by
  induction l with
  | nil =>
    rintro st ⟨p, hp, -⟩
    simp at hp
  | cons q rest ih =>
    rintro st ⟨p, hp, hnone⟩
    rcases List.mem_cons.mp hp with rfl | hmem
    · simp [addPackagePaths, hnone]
    · cases hq : env.findPackageJsonFile q
      · simp [addPackagePaths, hq]
      · simp only [addPackagePaths, hq]
        exact ih _ ⟨p, hmem, hnone⟩

theorem mainLoop_of_exit_ne (env : Env) (sfuel : Nat) (ty : DepedencyType)
    (r f : Bool) (fuel : Nat) (st : RunState) (h : st.exitCode ≠ 0) :
    mainLoop env sfuel ty r f fuel st = st := by
  have hb : (st.exitCode != 0) = true := by simpa using h
  cases fuel <;> simp [mainLoop, hb]

/-- C3: if any requested package path has no `package.json` at or above
it, the run returns exit code 1, the main loop processes no folder at
all, and no manifest and no lock file is written — in particular no
earlier requested package's manifest is modified. -/
theorem changeClonedDependenciesTo_fail_fast (env : Env) (sfuel lfuel : Nat)
    (p : String) (ty : DepedencyType) (opts : ChangeClonedDependenciesToOptions)
    (h : ∃ q ∈ packagePathsToAdd p opts, env.findPackageJsonFile q = none) :
    (changeClonedDependenciesTo env sfuel lfuel p ty opts).1 = 1 ∧
    (changeClonedDependenciesTo env sfuel lfuel p ty opts).2.packageFolderPathsVisited = [] ∧
    (changeClonedDependenciesTo env sfuel lfuel p ty opts).2.manifestWrites = [] ∧
    (changeClonedDependenciesTo env sfuel lfuel p ty opts).2.lockFileWrites = [] := by
  have hexit : (addPackagePaths env opts (packagePathsToAdd p opts) {}).exitCode = 1 :=
    addPackagePaths_exit_of_missing env opts (packagePathsToAdd p opts) {} h
  have hframe := addPackagePaths_frame env opts (packagePathsToAdd p opts) {}
  have hcr : (addPackagePaths env opts (packagePathsToAdd p opts)
      ({} : RunState)).crashed = false := hframe.2.2.2.2.2.2.2
  simp only [changeClonedDependenciesTo]
  rw [mainLoop_of_exit_ne _ _ _ _ _ _ _ (by rw [hexit]; exact one_ne_zero)]
  rw [hcr]
  rw [show (addPackagePaths env opts (packagePathsToAdd p opts) ({} : RunState)).folderPathsToRunNPMInstallIn
        = [] from hframe.2.2.2.1]
  simp only [runInstalls, hexit]
  norm_num
  exact ⟨hexit, hframe.1, hframe.2.1, hframe.2.2.1⟩

/-- C3 witness: requesting `r/a` (which has a manifest) together with
`zzz` (which has none) aborts with exit code 1 and writes nothing. -/
theorem changeClonedDependenciesTo_fail_fast_witness :
    (changeClonedDependenciesTo sampleEnv 5 5 "r/a" DepedencyType.strLocal
        { packageFolders := some [PackageFolderArg.str "zzz"] }).1 = 1 ∧
    (changeClonedDependenciesTo sampleEnv 5 5 "r/a" DepedencyType.strLocal
        { packageFolders := some [PackageFolderArg.str "zzz"] }).2.manifestWrites = [] :=
  ⟨(changeClonedDependenciesTo_fail_fast sampleEnv 5 5 "r/a" DepedencyType.strLocal
      { packageFolders := some [PackageFolderArg.str "zzz"] } (by decide)).1,
   (changeClonedDependenciesTo_fail_fast sampleEnv 5 5 "r/a" DepedencyType.strLocal
      { packageFolders := some [PackageFolderArg.str "zzz"] } (by decide)).2.2.1⟩

/-! ## C10: `updateDependencies` is entry-preserving -/

/-- C10: `updateDependencies` never adds or removes keys of the
dependency map (the name list is preserved, positions included); the
returned changed-name list contains exactly (and in order) the names of
the entries whose value was replaced; an entry keeps its original version
whenever its name is in the package's `dependenciesToIgnore` set, and
whenever its target-version resolution (in the state reached at its
iteration) is absent or empty. -/
theorem updateDependencies_entrywise (env : Env) (fuel : Nat) (cp : ClonedPackage)
    (ty : DepedencyType) (deps : List (String × String)) (st : RunState) :
    ((updateDependenciesList env fuel cp ty deps st).1.map Prod.fst = deps.map Prod.fst) ∧
    ((updateDependenciesList env fuel cp ty deps st).2.1 =
      (deps.zip (updateDependenciesList env fuel cp ty deps st).1).filterMap
        (fun e => if e.1.2 ≠ e.2.2 then some e.1.1 else none)) ∧
    (∀ i, i < deps.length →
      ((inIgnoreList cp.dependenciesToIgnore (deps.getD i ("", "")).1 = true →
          (updateDependenciesList env fuel cp ty deps st).1.getD i ("", "") =
            deps.getD i ("", "")) ∧
       (truthy (getDependencyTargetVersion env fuel cp (deps.getD i ("", "")).1 ty
            (updateDependenciesList env fuel cp ty (deps.take i) st).2.2).1 = false →
          (updateDependenciesList env fuel cp ty deps st).1.getD i ("", "") =
            deps.getD i ("", "")))) := by
  induction deps generalizing st with
  | nil =>
    refine ⟨rfl, by simp [updateDependenciesList], ?_⟩
    intro i hi
    simp at hi
  | cons e rest ih =>
    rcases e with ⟨n, v⟩
    cases hig : inIgnoreList cp.dependenciesToIgnore n
    · rcases hr : getDependencyTargetVersion env fuel cp n ty st with ⟨tv, st1⟩
      have ihst := ih st1
      rcases tv with _ | target
      · refine ⟨?_, ?_, ?_⟩
        · simpa [updateDependenciesList, hig, hr] using ihst.1
        · simpa [updateDependenciesList, hig, hr] using ihst.2.1
        · intro i hi
          cases i with
          | zero =>
            exact ⟨fun _ => by simp [updateDependenciesList, hig, hr],
                   fun _ => by simp [updateDependenciesList, hig, hr]⟩
          | succ j =>
            have hj : j < rest.length := by simpa using hi
            refine ⟨?_, ?_⟩
            · intro hgj
              have := (ihst.2.2 j hj).1 (by simpa using hgj)
              simpa [updateDependenciesList, hig, hr] using this
            · intro hres
              have hres' : truthy (getDependencyTargetVersion env fuel cp
                  (rest.getD j ("", "")).1 ty
                  (updateDependenciesList env fuel cp ty (rest.take j) st1).2.2).1 = false := by
                simpa [updateDependenciesList, hig, hr, List.take_succ_cons] using hres
              have := (ihst.2.2 j hj).2 hres'
              simpa [updateDependenciesList, hig, hr] using this
      · cases hch : (target != "" && v != target)
        · refine ⟨?_, ?_, ?_⟩
          · simpa [updateDependenciesList, hig, hr, hch] using ihst.1
          · simpa [updateDependenciesList, hig, hr, hch] using ihst.2.1
          · intro i hi
            cases i with
            | zero =>
              exact ⟨fun _ => by simp [updateDependenciesList, hig, hr, hch],
                     fun _ => by simp [updateDependenciesList, hig, hr, hch]⟩
            | succ j =>
              have hj : j < rest.length := by simpa using hi
              refine ⟨?_, ?_⟩
              · intro hgj
                have := (ihst.2.2 j hj).1 (by simpa using hgj)
                simpa [updateDependenciesList, hig, hr, hch] using this
              · intro hres
                have hres' : truthy (getDependencyTargetVersion env fuel cp
                    (rest.getD j ("", "")).1 ty
                    (updateDependenciesList env fuel cp ty (rest.take j) st1).2.2).1 = false := by
                  simpa [updateDependenciesList, hig, hr, hch, List.take_succ_cons] using hres
                have := (ihst.2.2 j hj).2 hres'
                simpa [updateDependenciesList, hig, hr, hch] using this
        · have hneq : ¬ (v = target) := by
            intro hv
            rw [hv] at hch
            simp at hch
          refine ⟨?_, ?_, ?_⟩
          · simpa [updateDependenciesList, hig, hr, hch] using ihst.1
          · have := ihst.2.1
            simp only [updateDependenciesList, hig, hr, hch]
            simpa [hneq] using this
          · intro i hi
            cases i with
            | zero =>
              refine ⟨?_, ?_⟩
              · intro hgj
                simp at hgj
                rw [hgj] at hig
                exact absurd hig (by simp)
              · intro hres
                simp only [List.take_zero, updateDependenciesList, List.getD_cons_zero] at hres
                rw [hr] at hres
                simp [truthy] at hres
                rw [hres] at hch
                simp at hch
            | succ j =>
              have hj : j < rest.length := by simpa using hi
              refine ⟨?_, ?_⟩
              · intro hgj
                have := (ihst.2.2 j hj).1 (by simpa using hgj)
                simpa [updateDependenciesList, hig, hr, hch] using this
              · intro hres
                have hres' : truthy (getDependencyTargetVersion env fuel cp
                    (rest.getD j ("", "")).1 ty
                    (updateDependenciesList env fuel cp ty (rest.take j) st1).2.2).1 = false := by
                  simpa [updateDependenciesList, hig, hr, hch, List.take_succ_cons] using hres
                have := (ihst.2.2 j hj).2 hres'
                simpa [updateDependenciesList, hig, hr, hch] using this
    · have ihst := ih st
      refine ⟨?_, ?_, ?_⟩
      · simpa [updateDependenciesList, hig] using ihst.1
      · simpa [updateDependenciesList, hig] using ihst.2.1
      · intro i hi
        cases i with
        | zero =>
          exact ⟨fun _ => by simp [updateDependenciesList, hig],
                 fun _ => by simp [updateDependenciesList, hig]⟩
        | succ j =>
          have hj : j < rest.length := by simpa using hi
          refine ⟨?_, ?_⟩
          · intro hgj
            have := (ihst.2.2 j hj).1 (by simpa using hgj)
            simpa [updateDependenciesList, hig] using this
          · intro hres
            have hres' : truthy (getDependencyTargetVersion env fuel cp
                (rest.getD j ("", "")).1 ty
                (updateDependenciesList env fuel cp ty (rest.take j) st).2.2).1 = false := by
              simpa [updateDependenciesList, hig, List.take_succ_cons] using hres
            have := (ihst.2.2 j hj).2 hres'
            simpa [updateDependenciesList, hig] using this

/-- C10 witness: on package `A`'s dependency map with a `local` run, the
single entry `C` is rewritten in place — keys preserved and the changed
list is exactly `["C"]`. -/
theorem updateDependencies_entrywise_witness :
    (updateDependenciesList sampleEnv 10 { path := "r/a" } DepedencyType.strLocal
        [("C", "1.0.0")] {}).1.map Prod.fst = [("C", "1.0.0")].map Prod.fst ∧
    (updateDependenciesList sampleEnv 10 { path := "r/a" } DepedencyType.strLocal
        [("C", "1.0.0")] {}).2.1 =
      ([("C", "1.0.0")].zip (updateDependenciesList sampleEnv 10 { path := "r/a" }
          DepedencyType.strLocal [("C", "1.0.0")] {}).1).filterMap
        (fun e => if e.1.2 ≠ e.2.2 then some e.1.1 else none) :=
  ⟨(updateDependencies_entrywise sampleEnv 10 { path := "r/a" } DepedencyType.strLocal
      [("C", "1.0.0")] {}).1,
   (updateDependencies_entrywise sampleEnv 10 { path := "r/a" } DepedencyType.strLocal
      [("C", "1.0.0")] {}).2.1⟩

/-! ## C9: the folder search visits no folder twice and terminates over
a finite closed folder universe -/

theorem addFolderToVisit_visited (ss : SearchState) (x : String) :
    (addFolderToVisit ss x).visitedFolders = ss.visitedFolders := by
  unfold addFolderToVisit
  split <;> rfl

theorem addFolderToVisit_result (ss : SearchState) (x : String) :
    (addFolderToVisit ss x).result = ss.result := by
  unfold addFolderToVisit
  split <;> rfl

theorem addFolderToVisit_nodup (ss : SearchState) (x : String)
    (h : (ss.visitedFolders ++ ss.foldersToVisit).Nodup) :
    ((addFolderToVisit ss x).visitedFolders ++ (addFolderToVisit ss x).foldersToVisit).Nodup := by
  unfold addFolderToVisit
  split
  · exact h
  · rename_i hx
    simp only
    rw [← List.append_assoc]
    refine h.append (List.nodup_singleton x) ?_
    intro a ha hax
    rw [List.mem_singleton] at hax
    subst hax
    simp only [Bool.or_eq_true, not_or] at hx
    rcases List.mem_append.mp ha with h1 | h2
    · exact hx.1 (by simpa using h1)
    · exact hx.2 (by simpa using h2)

theorem addFolderToVisit_mem (ss : SearchState) (x y : String)
    (hy : y ∈ (addFolderToVisit ss x).visitedFolders ++ (addFolderToVisit ss x).foldersToVisit) :
    y ∈ ss.visitedFolders ++ ss.foldersToVisit ∨ y = x := by
  unfold addFolderToVisit at hy
  split at hy
  · exact Or.inl hy
  · simp only [List.mem_append, List.mem_singleton] at hy
    rcases hy with h1 | h2 | h3
    · exact Or.inl (List.mem_append_left _ h1)
    · exact Or.inl (List.mem_append_right _ h2)
    · exact Or.inr h3

theorem foldl_addFolderToVisit_visited (xs : List String) (ss : SearchState) :
    (xs.foldl addFolderToVisit ss).visitedFolders = ss.visitedFolders := by
  induction xs generalizing ss with
  | nil => rfl
  | cons x xs ih => rw [List.foldl_cons, ih, addFolderToVisit_visited]

theorem foldl_addFolderToVisit_nodup (xs : List String) (ss : SearchState)
    (h : (ss.visitedFolders ++ ss.foldersToVisit).Nodup) :
    ((xs.foldl addFolderToVisit ss).visitedFolders ++
        (xs.foldl addFolderToVisit ss).foldersToVisit).Nodup := by
  induction xs generalizing ss with
  | nil => exact h
  | cons x xs ih => exact ih (addFolderToVisit ss x) (addFolderToVisit_nodup ss x h)

theorem foldl_addFolderToVisit_mem (xs : List String) (ss : SearchState) (y : String)
    (hy : y ∈ (xs.foldl addFolderToVisit ss).visitedFolders ++
        (xs.foldl addFolderToVisit ss).foldersToVisit) :
    y ∈ ss.visitedFolders ++ ss.foldersToVisit ∨ y ∈ xs := by
  induction xs generalizing ss with
  | nil => exact Or.inl hy
  | cons x xs ih =>
    rcases ih (addFolderToVisit ss x) hy with h1 | h2
    · rcases addFolderToVisit_mem ss x y h1 with h1a | h1b
      · exact Or.inl h1a
      · exact Or.inr (by simp [h1b])
    · exact Or.inr (List.mem_cons_of_mem x h2)

theorem searchStep_visited (env : Env) (rs : RunState) (n : String)
    (vis : List String) (f : String) (rest : List String) (res : Option ClonedPackage) :
    (searchStep env rs n ⟨vis, f :: rest, res⟩).visitedFolders = vis ++ [f] := by
  unfold searchStep
  dsimp only
  split
  · rfl
  · split
    · split
      · rw [foldl_addFolderToVisit_visited, addFolderToVisit_visited]
      · rfl
    · rfl

theorem searchStep_nodup (env : Env) (rs : RunState) (n : String)
    (vis : List String) (f : String) (rest : List String) (res : Option ClonedPackage)
    (h : (vis ++ f :: rest).Nodup) :
    ((searchStep env rs n ⟨vis, f :: rest, res⟩).visitedFolders ++
        (searchStep env rs n ⟨vis, f :: rest, res⟩).foldersToVisit).Nodup := by
  have hbase : ((vis ++ [f]) ++ rest).Nodup := by
    rw [List.append_assoc]
    simpa using h
  unfold searchStep
  dsimp only
  split
  · exact hbase
  · split
    · split
      · exact foldl_addFolderToVisit_nodup _ _ (addFolderToVisit_nodup _ _ hbase)
      · exact hbase
    · exact hbase

theorem searchStep_mem (env : Env) (rs : RunState) (n : String)
    (vis : List String) (f : String) (rest : List String) (res : Option ClonedPackage)
    (y : String)
    (hy : y ∈ (searchStep env rs n ⟨vis, f :: rest, res⟩).visitedFolders ++
        (searchStep env rs n ⟨vis, f :: rest, res⟩).foldersToVisit) :
    y ∈ vis ++ f :: rest ∨
      (env.parentFolderPath f ≠ "" ∧
        (y = env.parentFolderPath f ∨ y ∈ env.childFolderPaths (env.parentFolderPath f))) := by
  have hsplit : ∀ z : String, z ∈ (vis ++ [f]) ++ rest → z ∈ vis ++ f :: rest := by
    intro z hz
    rw [List.append_assoc] at hz
    simpa using hz
  unfold searchStep at hy
  dsimp only at hy
  split at hy
  · exact Or.inl (hsplit y hy)
  · split at hy
    · split at hy
      · rename_i hpar
        have hpar' : env.parentFolderPath f ≠ "" := by simpa using hpar
        rcases foldl_addFolderToVisit_mem _ _ y hy with h1 | h2
        · rcases addFolderToVisit_mem _ _ y h1 with h1a | h1b
          · exact Or.inl (hsplit y h1a)
          · exact Or.inr ⟨hpar', Or.inl h1b⟩
        · exact Or.inr ⟨hpar', Or.inr h2⟩
      · exact Or.inl (hsplit y hy)
    · exact Or.inl (hsplit y hy)

theorem searchLoop_final (env : Env) (rs : RunState) (n : String) (U : List String)
    (hclosed : ∀ f ∈ U, env.parentFolderPath f ≠ "" → env.parentFolderPath f ∈ U ∧
        ∀ c ∈ env.childFolderPaths (env.parentFolderPath f), c ∈ U) :
    ∀ fuel : Nat, ∀ ss : SearchState,
      (ss.visitedFolders ++ ss.foldersToVisit).Nodup →
      (∀ y ∈ ss.visitedFolders ++ ss.foldersToVisit, y ∈ U) →
      U.length + 1 ≤ fuel + ss.visitedFolders.length →
      ((searchLoop env rs n fuel ss).result.isSome ∨
        (searchLoop env rs n fuel ss).foldersToVisit = []) ∧
      (searchLoop env rs n fuel ss).visitedFolders.Nodup := by
  intro fuel
  induction fuel with
  | zero =>
    intro ss hnd hsub hlen
    exfalso
    have h1 : ss.visitedFolders.Nodup := hnd.of_append_left
    have h2 : ss.visitedFolders ⊆ U := by
      intro a ha
      exact hsub a (List.mem_append_left _ ha)
    have h3 := (h1.subperm h2).length_le
    omega
  | succ k ih =>
    intro ss hnd hsub hlen
    cases hstop : (ss.foldersToVisit.isEmpty || ss.result.isSome)
    · have hguard : searchLoop env rs n (k + 1) ss =
          searchLoop env rs n k (searchStep env rs n ss) := by
        simp [searchLoop, hstop]
      rw [hguard]
      obtain ⟨vis, queue, res⟩ := ss
      rcases hq : queue with _ | ⟨f, rest⟩
      · subst hq
        simp at hstop
      · subst hq
        simp only at hnd hsub hlen hstop ⊢
        have hfU : f ∈ U := hsub f (by simp)
        have hndstep := searchStep_nodup env rs n vis f rest res hnd
        have hsubstep : ∀ y ∈ (searchStep env rs n ⟨vis, f :: rest, res⟩).visitedFolders ++
            (searchStep env rs n ⟨vis, f :: rest, res⟩).foldersToVisit, y ∈ U := by
          intro y hy
          rcases searchStep_mem env rs n vis f rest res y hy with h1 | ⟨hpar, h2 | h3⟩
          · exact hsub y h1
          · exact h2 ▸ (hclosed f hfU hpar).1
          · exact (hclosed f hfU hpar).2 y h3
        have hlenstep : U.length + 1 ≤ k +
            (searchStep env rs n ⟨vis, f :: rest, res⟩).visitedFolders.length := by
          rw [searchStep_visited env rs n vis f rest res]
          simp only [List.length_append, List.length_cons, List.length_nil]
          omega
        exact ih (searchStep env rs n ⟨vis, f :: rest, res⟩) hndstep hsubstep hlenstep
    · have hguard : searchLoop env rs n (k + 1) ss = ss := by
        simp [searchLoop, hstop]
      rw [hguard]
      refine ⟨?_, hnd.of_append_left⟩
      rcases Bool.or_eq_true_iff.mp hstop with h1 | h2
      · exact Or.inr (List.isEmpty_iff.mp h1)
      · exact Or.inl h2

/-- C9: over a finite folder universe `U` that contains the seeded start
folder and is closed under taking (nonempty) parents and the parent's
child folders, `findPackage`'s search loop reaches a final state — a
folder whose manifest declares the sought name was found, or the frontier
queue is empty (the root was reached with no parent) — within
`|U| + 1` iterations, and no folder path is dequeued (visited) twice:
the visited list is duplicate-free, membership being exact path
equality. -/
theorem findPackage_search_terminates (env : Env) (rs : RunState)
    (packageName startPath : String) (U : List String) (fuel : Nat)
    (hstart : ∀ x ∈ (initialSearchState env rs startPath).foldersToVisit, x ∈ U)
    (hclosed : ∀ f ∈ U, env.parentFolderPath f ≠ "" → env.parentFolderPath f ∈ U ∧
        ∀ c ∈ env.childFolderPaths (env.parentFolderPath f), c ∈ U)
    (hfuel : U.length + 1 ≤ fuel) :
    ((searchLoop env rs packageName fuel (initialSearchState env rs startPath)).result.isSome ∨
      (searchLoop env rs packageName fuel (initialSearchState env rs startPath)).foldersToVisit = []) ∧
    (searchLoop env rs packageName fuel (initialSearchState env rs startPath)).visitedFolders.Nodup := by
  have hvis : (initialSearchState env rs startPath).visitedFolders = [] := by
    unfold initialSearchState
    dsimp only
    split
    · rfl
    · split <;> rfl
  have hnd : ((initialSearchState env rs startPath).visitedFolders ++
      (initialSearchState env rs startPath).foldersToVisit).Nodup := by
    rw [hvis, List.nil_append]
    unfold initialSearchState
    dsimp only
    split
    · exact List.nodup_singleton _
    · split
      · exact List.nodup_singleton _
      · exact List.nodup_nil
  refine searchLoop_final env rs packageName U hclosed fuel _ hnd ?_ ?_
  · intro y hy
    rw [hvis, List.nil_append] at hy
    exact hstart y hy
  · rw [hvis]
    simpa using hfuel

/-- C9 witness: searching for `C` from `r/a` in the sample workspace,
with the closed universe `{r, r/a, r/b, r/c}` and fuel 5, ends in a
final state with a duplicate-free visited list. -/
theorem findPackage_search_terminates_witness :
    ((searchLoop sampleEnv {} "C" 5 (initialSearchState sampleEnv {} "r/a")).result.isSome ∨
      (searchLoop sampleEnv {} "C" 5 (initialSearchState sampleEnv {} "r/a")).foldersToVisit = []) ∧
    (searchLoop sampleEnv {} "C" 5 (initialSearchState sampleEnv {} "r/a")).visitedFolders.Nodup :=
  findPackage_search_terminates sampleEnv {} "C" "r/a" ["r", "r/a", "r/b", "r/c"] 5
    (by decide) (by decide) (by decide)

/-! ## C2: the main loop never dequeues a folder twice (for duplicate-free
seed queues) -/

theorem enqueueClonedDependency_frame (st : RunState) (n : String) :
    (enqueueClonedDependency st n).packageFolderPathsVisited = st.packageFolderPathsVisited ∧
    (enqueueClonedDependency st n).clonedPackages = st.clonedPackages ∧
    (enqueueClonedDependency st n).installCalls = st.installCalls ∧
    (enqueueClonedDependency st n).extraFileWrites = st.extraFileWrites ∧
    (enqueueClonedDependency st n).exitCode = st.exitCode ∧
    (enqueueClonedDependency st n).manifestWrites = st.manifestWrites ∧
    (enqueueClonedDependency st n).lockFileWrites = st.lockFileWrites ∧
    (enqueueClonedDependency st n).processLog = st.processLog ∧
    (enqueueClonedDependency st n).folderPathsToRunNPMInstallIn = st.folderPathsToRunNPMInstallIn := by
  unfold enqueueClonedDependency
  split
  · exact ⟨rfl, rfl, rfl, rfl, rfl, rfl, rfl, rfl, rfl⟩
  · dsimp only
    split
    · exact ⟨rfl, rfl, rfl, rfl, rfl, rfl, rfl, rfl, rfl⟩
    · exact ⟨rfl, rfl, rfl, rfl, rfl, rfl, rfl, rfl, rfl⟩

theorem enqueueClonedDependency_nodup (st : RunState) (n : String)
    (h : (st.packageFolderPathsVisited ++ st.packageFolderPathsToVisit).Nodup) :
    ((enqueueClonedDependency st n).packageFolderPathsVisited ++
        (enqueueClonedDependency st n).packageFolderPathsToVisit).Nodup := by
  unfold enqueueClonedDependency
  split
  · exact h
  · dsimp only
    split
    · rename_i x cp heq hcond
      simp only [Bool.and_eq_true, Bool.not_eq_true'] at hcond
      simp only
      rw [← List.append_assoc]
      refine h.append (List.nodup_singleton _) ?_
      intro a ha hax
      rw [List.mem_singleton] at hax
      subst hax
      rcases List.mem_append.mp ha with h1 | h2
      · exact absurd h1 (by simpa using hcond.1.2)
      · exact absurd h2 (by simpa using hcond.2)
    · exact h

theorem foldl_enqueue_frame (names : List String) (st : RunState) :
    ((names.foldl enqueueClonedDependency st).packageFolderPathsVisited =
        st.packageFolderPathsVisited) ∧
    ((names.foldl enqueueClonedDependency st).clonedPackages = st.clonedPackages) ∧
    ((names.foldl enqueueClonedDependency st).installCalls = st.installCalls) ∧
    ((names.foldl enqueueClonedDependency st).extraFileWrites = st.extraFileWrites) ∧
    ((names.foldl enqueueClonedDependency st).exitCode = st.exitCode) ∧
    ((names.foldl enqueueClonedDependency st).manifestWrites = st.manifestWrites) ∧
    ((names.foldl enqueueClonedDependency st).lockFileWrites = st.lockFileWrites) ∧
    ((names.foldl enqueueClonedDependency st).processLog = st.processLog) ∧
    ((names.foldl enqueueClonedDependency st).folderPathsToRunNPMInstallIn =
        st.folderPathsToRunNPMInstallIn) := by
  induction names generalizing st with
  | nil => exact ⟨rfl, rfl, rfl, rfl, rfl, rfl, rfl, rfl, rfl⟩
  | cons x xs ih =>
    have he := enqueueClonedDependency_frame st x
    have hi := ih (enqueueClonedDependency st x)
    exact ⟨hi.1.trans he.1, hi.2.1.trans he.2.1, hi.2.2.1.trans he.2.2.1,
      hi.2.2.2.1.trans he.2.2.2.1, hi.2.2.2.2.1.trans he.2.2.2.2.1,
      hi.2.2.2.2.2.1.trans he.2.2.2.2.2.1, hi.2.2.2.2.2.2.1.trans he.2.2.2.2.2.2.1,
      hi.2.2.2.2.2.2.2.1.trans he.2.2.2.2.2.2.2.1, hi.2.2.2.2.2.2.2.2.trans he.2.2.2.2.2.2.2.2⟩

theorem foldl_enqueue_nodup (names : List String) (st : RunState)
    (h : (st.packageFolderPathsVisited ++ st.packageFolderPathsToVisit).Nodup) :
    ((names.foldl enqueueClonedDependency st).packageFolderPathsVisited ++
        (names.foldl enqueueClonedDependency st).packageFolderPathsToVisit).Nodup := by
  induction names generalizing st with
  | nil => exact h
  | cons x xs ih => exact ih (enqueueClonedDependency st x) (enqueueClonedDependency_nodup st x h)

/-- The resolution phase inside `processFolder` is a resolution-only
state change on top of a cache update. -/
theorem processFolder_resolve_preserves (env : Env) (sfuel : Nat)
    (ty : DepedencyType) (st : RunState) (cp : ClonedPackage)
    (d1 d2 : Option (List (String × String)))
    (c : List (String × Option ClonedPackage)) :
    ResolvePreserves st (updateDependencies env sfuel cp d2 ty
      (updateDependencies env sfuel cp d1 ty { st with clonedPackages := c }).2.2).2.2 :=
  ResolvePreserves.comp
    (ResolvePreserves.comp
      (⟨rfl, rfl, rfl, rfl, rfl, rfl, rfl, rfl, rfl⟩ :
        ResolvePreserves st { st with clonedPackages := c })
      (updateDependencies_preserves env sfuel cp d1 ty { st with clonedPackages := c }))
    (updateDependencies_preserves env sfuel cp d2 ty
      (updateDependencies env sfuel cp d1 ty { st with clonedPackages := c }).2.2)

theorem processFolder_queue_frame (env : Env) (sfuel : Nat) (ty : DepedencyType)
    (fi : Bool) (fp : String) (st : RunState) :
    (processFolder env sfuel ty fi fp st).1.packageFolderPathsToVisit =
        st.packageFolderPathsToVisit ∧
    (processFolder env sfuel ty fi fp st).1.packageFolderPathsVisited =
        st.packageFolderPathsVisited ∧
    (processFolder env sfuel ty fi fp st).1.installCalls = st.installCalls ∧
    (processFolder env sfuel ty fi fp st).1.extraFileWrites = st.extraFileWrites ∧
    (processFolder env sfuel ty fi fp st).1.exitCode = st.exitCode := by
  unfold processFolder
  dsimp only
  split
  · exact ⟨rfl, rfl, rfl, rfl, rfl⟩
  · split
    · split
      · exact ⟨(processFolder_resolve_preserves env sfuel ty st _ _ _ _).toVisit,
          (processFolder_resolve_preserves env sfuel ty st _ _ _ _).visited,
          (processFolder_resolve_preserves env sfuel ty st _ _ _ _).installs,
          (processFolder_resolve_preserves env sfuel ty st _ _ _ _).extras,
          (processFolder_resolve_preserves env sfuel ty st _ _ _ _).exit⟩
      · exact ⟨(processFolder_resolve_preserves env sfuel ty st _ _ _ _).toVisit,
          (processFolder_resolve_preserves env sfuel ty st _ _ _ _).visited,
          (processFolder_resolve_preserves env sfuel ty st _ _ _ _).installs,
          (processFolder_resolve_preserves env sfuel ty st _ _ _ _).extras,
          (processFolder_resolve_preserves env sfuel ty st _ _ _ _).exit⟩
    · split
      · split
        · exact ⟨(processFolder_resolve_preserves env sfuel ty st _ _ _ _).toVisit,
            (processFolder_resolve_preserves env sfuel ty st _ _ _ _).visited,
            (processFolder_resolve_preserves env sfuel ty st _ _ _ _).installs,
            (processFolder_resolve_preserves env sfuel ty st _ _ _ _).extras,
            (processFolder_resolve_preserves env sfuel ty st _ _ _ _).exit⟩
        · exact ⟨(processFolder_resolve_preserves env sfuel ty st _ _ _ _).toVisit,
            (processFolder_resolve_preserves env sfuel ty st _ _ _ _).visited,
            (processFolder_resolve_preserves env sfuel ty st _ _ _ _).installs,
            (processFolder_resolve_preserves env sfuel ty st _ _ _ _).extras,
            (processFolder_resolve_preserves env sfuel ty st _ _ _ _).exit⟩
      · split
        · exact ⟨(processFolder_resolve_preserves env sfuel ty st _ _ _ _).toVisit,
            (processFolder_resolve_preserves env sfuel ty st _ _ _ _).visited,
            (processFolder_resolve_preserves env sfuel ty st _ _ _ _).installs,
            (processFolder_resolve_preserves env sfuel ty st _ _ _ _).extras,
            (processFolder_resolve_preserves env sfuel ty st _ _ _ _).exit⟩
        · exact ⟨(processFolder_resolve_preserves env sfuel ty st _ _ _ _).toVisit,
            (processFolder_resolve_preserves env sfuel ty st _ _ _ _).visited,
            (processFolder_resolve_preserves env sfuel ty st _ _ _ _).installs,
            (processFolder_resolve_preserves env sfuel ty st _ _ _ _).extras,
            (processFolder_resolve_preserves env sfuel ty st _ _ _ _).exit⟩

theorem mainLoopStep_nodup (env : Env) (sfuel : Nat) (ty : DepedencyType)
    (r fi : Bool) (st : RunState)
    (h : (st.packageFolderPathsVisited ++ st.packageFolderPathsToVisit).Nodup) :
    ((mainLoopStep env sfuel ty r fi st).packageFolderPathsVisited ++
        (mainLoopStep env sfuel ty r fi st).packageFolderPathsToVisit).Nodup := by
  unfold mainLoopStep
  split
  · exact h
  · rename_i fp rest hq
    dsimp only
    rw [hq] at h
    have h1 : ((st.packageFolderPathsVisited ++ [fp]) ++ rest).Nodup := by
      rw [List.append_assoc]
      simpa using h
    have hpf := processFolder_queue_frame env sfuel ty fi fp
      { st with packageFolderPathsToVisit := rest,
                packageFolderPathsVisited := st.packageFolderPathsVisited ++ [fp] }
    have h2 : ((processFolder env sfuel ty fi fp
        { st with packageFolderPathsToVisit := rest,
                  packageFolderPathsVisited := st.packageFolderPathsVisited ++ [fp] }).1.packageFolderPathsVisited ++
        (processFolder env sfuel ty fi fp
        { st with packageFolderPathsToVisit := rest,
                  packageFolderPathsVisited := st.packageFolderPathsVisited ++ [fp] }).1.packageFolderPathsToVisit).Nodup := by
      rw [hpf.1, hpf.2.1]
      exact h1
    split
    · exact h2
    · split
      · exact foldl_enqueue_nodup _ _ h2
      · exact h2

theorem mainLoop_nodup (env : Env) (sfuel : Nat) (ty : DepedencyType)
    (r fi : Bool) : ∀ (fuel : Nat) (st : RunState),
    (st.packageFolderPathsVisited ++ st.packageFolderPathsToVisit).Nodup →
    ((mainLoop env sfuel ty r fi fuel st).packageFolderPathsVisited ++
        (mainLoop env sfuel ty r fi fuel st).packageFolderPathsToVisit).Nodup := by
  intro fuel
  induction fuel with
  | zero => intro st h; exact h
  | succ k ih =>
    intro st h
    by_cases hg : (st.packageFolderPathsToVisit.isEmpty || st.exitCode != 0 || st.crashed) = true
    · simpa [mainLoop, hg] using h
    · have hg' : (st.packageFolderPathsToVisit.isEmpty || st.exitCode != 0 || st.crashed) = false := by
        simpa using hg
      have : mainLoop env sfuel ty r fi (k + 1) st =
          mainLoop env sfuel ty r fi k (mainLoopStep env sfuel ty r fi st) := by
        simp [mainLoop, hg']
      rw [this]
      exact ih _ (mainLoopStep_nodup env sfuel ty r fi st h)

theorem runInstalls_frame (env : Env) (l : List String) : ∀ st : RunState,
    (runInstalls env l st).packageFolderPathsVisited = st.packageFolderPathsVisited ∧
    (runInstalls env l st).clonedPackages = st.clonedPackages ∧
    (runInstalls env l st).manifestWrites = st.manifestWrites ∧
    (runInstalls env l st).lockFileWrites = st.lockFileWrites ∧
    (runInstalls env l st).processLog = st.processLog ∧
    (runInstalls env l st).extraFileWrites = st.extraFileWrites ∧
    (runInstalls env l st).folderPathsToRunNPMInstallIn = st.folderPathsToRunNPMInstallIn ∧
    (runInstalls env l st).packageFolderPathsToVisit = st.packageFolderPathsToVisit := by
  induction l with
  | nil => exact fun st => ⟨rfl, rfl, rfl, rfl, rfl, rfl, rfl, rfl⟩
  | cons x xs ih =>
    intro st
    by_cases hc : (env.npmInstallExitCode x != 0) = true
    · simp only [runInstalls, hc]
      exact ⟨rfl, rfl, rfl, rfl, rfl, rfl, rfl, rfl⟩
    · have hc' : (env.npmInstallExitCode x != 0) = false := by simpa using hc
      simp only [runInstalls, hc']
      exact ih _

theorem updateExtraFiles_frame (env : Env) (l : List String) : ∀ st : RunState,
    (updateExtraFiles env l st).packageFolderPathsVisited = st.packageFolderPathsVisited ∧
    (updateExtraFiles env l st).clonedPackages = st.clonedPackages ∧
    (updateExtraFiles env l st).manifestWrites = st.manifestWrites ∧
    (updateExtraFiles env l st).lockFileWrites = st.lockFileWrites ∧
    (updateExtraFiles env l st).processLog = st.processLog ∧
    (updateExtraFiles env l st).installCalls = st.installCalls ∧
    (updateExtraFiles env l st).folderPathsToRunNPMInstallIn = st.folderPathsToRunNPMInstallIn ∧
    (updateExtraFiles env l st).packageFolderPathsToVisit = st.packageFolderPathsToVisit := by
  induction l with
  | nil => exact fun st => ⟨rfl, rfl, rfl, rfl, rfl, rfl, rfl, rfl⟩
  | cons x xs ih =>
    intro st
    unfold updateExtraFiles
    split
    · exact ⟨rfl, rfl, rfl, rfl, rfl, rfl, rfl, rfl⟩
    · dsimp only
      split
      · exact ih _
      · exact ih _

/-- C2 (amended): provided the requested package paths resolve to
pairwise-distinct package folders (the phase-1 seed queue has no
duplicate), each locally cloned package folder is dequeued and processed
by the main loop at most once per run — over any dependency graph,
including cycles — so no folder path occurs twice in the visited list.
(With duplicate seeds the seed folder itself is dequeued once per
occurrence; see the counterexample.) -/
theorem visited_folders_nodup (env : Env) (sfuel lfuel : Nat) (p : String)
    (ty : DepedencyType) (opts : ChangeClonedDependenciesToOptions)
    (h : (addPackagePaths env opts (packagePathsToAdd p opts) {}).packageFolderPathsToVisit.Nodup) :
    (changeClonedDependenciesTo env sfuel lfuel p ty opts).2.packageFolderPathsVisited.Nodup := by
  have hv1 : (addPackagePaths env opts (packagePathsToAdd p opts)
      ({} : RunState)).packageFolderPathsVisited = [] :=
    (addPackagePaths_frame env opts (packagePathsToAdd p opts) {}).1
  have hcomb : ((addPackagePaths env opts (packagePathsToAdd p opts)
        ({} : RunState)).packageFolderPathsVisited ++
      (addPackagePaths env opts (packagePathsToAdd p opts)
        ({} : RunState)).packageFolderPathsToVisit).Nodup := by
    rw [hv1]
    simpa using h
  have hM := mainLoop_nodup env sfuel ty (opts.recursive.getD true)
    (opts.forceInstall.getD false) lfuel _ hcomb
  unfold changeClonedDependenciesTo
  dsimp only
  split
  · exact hM.of_append_left
  · split
    · rw [(updateExtraFiles_frame env _ _).1, (runInstalls_frame env _ _).1]
      exact hM.of_append_left
    · rw [(runInstalls_frame env _ _).1]
      exact hM.of_append_left

/-- C2 witness: a single requested path gives a duplicate-free visited
list. -/
theorem visited_folders_nodup_witness :
    (changeClonedDependenciesTo sampleEnv 10 10 "r/a" DepedencyType.strLocal
        {}).2.packageFolderPathsVisited.Nodup :=
  visited_folders_nodup sampleEnv 10 10 "r/a" DepedencyType.strLocal {} (by decide)

/-- C2 counterexample: requesting the same package path twice (as
`packagePath` and again in `options.packageFolders`) seeds the work queue
with the same folder twice, and the main loop dequeues and processes
`r/a` twice — the visited list contains a duplicated folder path. -/
theorem duplicate_seed_folder_visited_twice :
    (changeClonedDependenciesTo sampleEnv 10 10 "r/a" DepedencyType.latest
        { packageFolders := some [PackageFolderArg.str "r/a"] }).2.packageFolderPathsVisited
      = ["r/a", "r/a", "r/c"] ∧
    ¬ (changeClonedDependenciesTo sampleEnv 10 10 "r/a" DepedencyType.latest
        { packageFolders := some [PackageFolderArg.str "r/a"] }).2.packageFolderPathsVisited.Nodup := by
  decide

/-! ## C7: the install pass runs in order and fail-fast -/

theorem mainLoopStep_installs_extras_exit (env : Env) (sfuel : Nat)
    (ty : DepedencyType) (r fi : Bool) (st : RunState) :
    (mainLoopStep env sfuel ty r fi st).installCalls = st.installCalls ∧
    (mainLoopStep env sfuel ty r fi st).extraFileWrites = st.extraFileWrites ∧
    (mainLoopStep env sfuel ty r fi st).exitCode = st.exitCode := by
  unfold mainLoopStep
  split
  · exact ⟨rfl, rfl, rfl⟩
  · rename_i fp rest hq
    dsimp only
    have hpf := processFolder_queue_frame env sfuel ty fi fp
      { st with packageFolderPathsToVisit := rest,
                packageFolderPathsVisited := st.packageFolderPathsVisited ++ [fp] }
    split
    · exact ⟨hpf.2.2.1, hpf.2.2.2.1, hpf.2.2.2.2⟩
    · split
      · have hfold := foldl_enqueue_frame
          (((processFolder env sfuel ty fi fp
              { st with packageFolderPathsToVisit := rest,
                        packageFolderPathsVisited := st.packageFolderPathsVisited ++ [fp] }).2.dependencies.getD []).map Prod.fst ++
            ((processFolder env sfuel ty fi fp
              { st with packageFolderPathsToVisit := rest,
                        packageFolderPathsVisited := st.packageFolderPathsVisited ++ [fp] }).2.devDependencies.getD []).map Prod.fst)
          (processFolder env sfuel ty fi fp
            { st with packageFolderPathsToVisit := rest,
                      packageFolderPathsVisited := st.packageFolderPathsVisited ++ [fp] }).1
        exact ⟨hfold.2.2.1.trans hpf.2.2.1, hfold.2.2.2.1.trans hpf.2.2.2.1,
          hfold.2.2.2.2.1.trans hpf.2.2.2.2⟩
      · exact ⟨hpf.2.2.1, hpf.2.2.2.1, hpf.2.2.2.2⟩

theorem mainLoop_installs_extras_exit (env : Env) (sfuel : Nat)
    (ty : DepedencyType) (r fi : Bool) : ∀ (fuel : Nat) (st : RunState),
    (mainLoop env sfuel ty r fi fuel st).installCalls = st.installCalls ∧
    (mainLoop env sfuel ty r fi fuel st).extraFileWrites = st.extraFileWrites ∧
    (mainLoop env sfuel ty r fi fuel st).exitCode = st.exitCode := by
  intro fuel
  induction fuel with
  | zero => exact fun st => ⟨rfl, rfl, rfl⟩
  | succ k ih =>
    intro st
    by_cases hg : (st.packageFolderPathsToVisit.isEmpty || st.exitCode != 0 || st.crashed) = true
    · simp [mainLoop, hg]
    · have hg' : (st.packageFolderPathsToVisit.isEmpty || st.exitCode != 0 || st.crashed) = false := by
        simpa using hg
      have hstep : mainLoop env sfuel ty r fi (k + 1) st =
          mainLoop env sfuel ty r fi k (mainLoopStep env sfuel ty r fi st) := by
        simp [mainLoop, hg']
      rw [hstep]
      have h1 := ih (mainLoopStep env sfuel ty r fi st)
      have h2 := mainLoopStep_installs_extras_exit env sfuel ty r fi st
      exact ⟨h1.1.trans h2.1, h1.2.1.trans h2.2.1, h1.2.2.trans h2.2.2⟩

/-- The observable behaviour of the install loop: the calls made extend
the log by a prefix `delta` of the scheduled list; every call before the
last returned zero; a failing call is the last one and its code is the
resulting exit code; if every scheduled install succeeds, all of them are
invoked. -/
theorem runInstalls_spec (env : Env) : ∀ (l : List String) (st : RunState),
    ∃ delta : List String,
      (runInstalls env l st).installCalls = st.installCalls ++ delta ∧
      delta = l.take delta.length ∧
      (∀ i, i + 1 < delta.length → env.npmInstallExitCode (delta.getD i "") = 0) ∧
      ((∀ f ∈ l, env.npmInstallExitCode f = 0) → delta = l) ∧
      (delta = [] → (runInstalls env l st).exitCode = st.exitCode ∧ l = []) ∧
      (delta ≠ [] → (runInstalls env l st).exitCode =
          env.npmInstallExitCode (delta.getD (delta.length - 1) "")) ∧
      (∀ i, i < delta.length → env.npmInstallExitCode (delta.getD i "") ≠ 0 →
          i = delta.length - 1) := by
  intro l
  induction l with
  | nil =>
    intro st
    refine ⟨[], by simp [runInstalls], rfl, ?_, fun _ => rfl, fun _ => ⟨rfl, rfl⟩, ?_, ?_⟩
    · intro i hi
      simp at hi
    · intro h
      exact absurd rfl h
    · intro i hi
      simp at hi
  | cons f rest ih =>
    intro st
    by_cases hc : (env.npmInstallExitCode f != 0) = true
    · have hc' : env.npmInstallExitCode f ≠ 0 := by simpa using hc
      have hrun : runInstalls env (f :: rest) st =
          { st with installCalls := st.installCalls ++ [f],
                    exitCode := env.npmInstallExitCode f } := by
        simp [runInstalls, hc]
      refine ⟨[f], by rw [hrun], by simp, ?_, ?_, ?_, ?_, ?_⟩
      · intro i hi
        simp at hi
      · intro hall
        exact absurd (hall f (by simp)) hc'
      · intro h
        simp at h
      · intro _
        rw [hrun]
        simp
      · intro i hi _
        simp at hi
        simp [hi]
    · have hc0 : env.npmInstallExitCode f = 0 := by simpa using hc
      have hcF : (env.npmInstallExitCode f != 0) = false := by simpa using hc
      have hrun : runInstalls env (f :: rest) st =
          runInstalls env rest
            { st with installCalls := st.installCalls ++ [f], exitCode := env.npmInstallExitCode f } := by
        simp [runInstalls, hcF]
      obtain ⟨delta, hcalls, htake, hzero, hall, hemp, hne, hlast⟩ :=
        ih { st with installCalls := st.installCalls ++ [f], exitCode := env.npmInstallExitCode f }
      refine ⟨f :: delta, ?_, ?_, ?_, ?_, ?_, ?_, ?_⟩
      · rw [hrun, hcalls]
        simp
      · simpa using htake
      · intro i hi
        cases i with
        | zero => simpa using hc0
        | succ j =>
          exact hzero j (by simpa using hi)
      · intro h
        have : delta = rest := hall (fun g hg => h g (List.mem_cons_of_mem f hg))
        rw [this]
      · intro h
        simp at h
      · intro _
        rcases heq : delta with _ | ⟨g, delta'⟩
        · rw [heq] at hemp
          rw [hrun, (hemp rfl).1, hc0]
          simp [hc0]
        · rw [heq] at hne
          rw [hrun, hne (by simp)]
          simp
      · intro i hi hnz
        cases i with
        | zero =>
          exact absurd (by simpa using hc0) (by simpa using hnz)
        | succ j =>
          have hj := hlast j (by simpa using hi) (by simpa using hnz)
          have hdne : delta ≠ [] := by
            intro h0
            rw [h0] at hi
            simp at hi
          have : 1 ≤ delta.length := by
            rcases delta with _ | _
            · exact absurd rfl hdne
            · simp
          simp only [List.length_cons]
          omega

/-- C7: after the main loop, `npm install` is invoked on the scheduled
folders exactly in the order they were scheduled (the call list is an
initial segment of the schedule, and the whole schedule when every
install succeeds), every call before the last returned zero (no later
folder is attempted after a failure), and a failing call's non-zero exit
code becomes the run's overall exit code. (Stated for runs in which the
main loop completes, i.e. does not throw the non-null-assertion
TypeError.) -/
theorem install_pass_fail_fast (env : Env) (sfuel lfuel : Nat) (p : String)
    (ty : DepedencyType) (opts : ChangeClonedDependenciesToOptions)
    (hnc : (mainLoop env sfuel ty (opts.recursive.getD true) (opts.forceInstall.getD false)
      lfuel (addPackagePaths env opts (packagePathsToAdd p opts) {})).crashed = false) :
    (changeClonedDependenciesTo env sfuel lfuel p ty opts).2.installCalls =
      (mainLoop env sfuel ty (opts.recursive.getD true) (opts.forceInstall.getD false)
          lfuel (addPackagePaths env opts (packagePathsToAdd p opts) {})).folderPathsToRunNPMInstallIn.take
        (changeClonedDependenciesTo env sfuel lfuel p ty opts).2.installCalls.length ∧
    (∀ i, i + 1 < (changeClonedDependenciesTo env sfuel lfuel p ty opts).2.installCalls.length →
      env.npmInstallExitCode
        ((changeClonedDependenciesTo env sfuel lfuel p ty opts).2.installCalls.getD i "") = 0) ∧
    (∀ i, i < (changeClonedDependenciesTo env sfuel lfuel p ty opts).2.installCalls.length →
      env.npmInstallExitCode
          ((changeClonedDependenciesTo env sfuel lfuel p ty opts).2.installCalls.getD i "") ≠ 0 →
      i = (changeClonedDependenciesTo env sfuel lfuel p ty opts).2.installCalls.length - 1 ∧
      (changeClonedDependenciesTo env sfuel lfuel p ty opts).1 =
        env.npmInstallExitCode
          ((changeClonedDependenciesTo env sfuel lfuel p ty opts).2.installCalls.getD i "")) ∧
    ((∀ f ∈ (mainLoop env sfuel ty (opts.recursive.getD true) (opts.forceInstall.getD false)
          lfuel (addPackagePaths env opts (packagePathsToAdd p opts) {})).folderPathsToRunNPMInstallIn,
        env.npmInstallExitCode f = 0) →
      (changeClonedDependenciesTo env sfuel lfuel p ty opts).2.installCalls =
        (mainLoop env sfuel ty (opts.recursive.getD true) (opts.forceInstall.getD false)
          lfuel (addPackagePaths env opts (packagePathsToAdd p opts) {})).folderPathsToRunNPMInstallIn) := by
  have hph : (addPackagePaths env opts (packagePathsToAdd p opts)
      ({} : RunState)).installCalls = [] :=
    (addPackagePaths_frame env opts (packagePathsToAdd p opts) {}).2.2.2.2.1
  have hml := mainLoop_installs_extras_exit env sfuel ty (opts.recursive.getD true)
    (opts.forceInstall.getD false) lfuel (addPackagePaths env opts (packagePathsToAdd p opts) {})
  obtain ⟨delta, hcalls, htake, hzero, hall, hemp, hne, hlast⟩ :=
    runInstalls_spec env
      (mainLoop env sfuel ty (opts.recursive.getD true) (opts.forceInstall.getD false)
        lfuel (addPackagePaths env opts (packagePathsToAdd p opts) {})).folderPathsToRunNPMInstallIn
      (mainLoop env sfuel ty (opts.recursive.getD true) (opts.forceInstall.getD false)
        lfuel (addPackagePaths env opts (packagePathsToAdd p opts) {}))
  have hmlic : (mainLoop env sfuel ty (opts.recursive.getD true) (opts.forceInstall.getD false)
      lfuel (addPackagePaths env opts (packagePathsToAdd p opts) {})).installCalls = [] :=
    hml.1.trans hph
  rw [hmlic, List.nil_append] at hcalls
  -- the final state of the run and its install-call list
  have hfinal : (changeClonedDependenciesTo env sfuel lfuel p ty opts).2.installCalls = delta := by
    unfold changeClonedDependenciesTo
    dsimp only
    simp only [hnc, Bool.false_eq_true, if_false]
    split
    · rw [(updateExtraFiles_frame env _ _).2.2.2.2.2.1]
      exact hcalls
    · exact hcalls
  refine ⟨?_, ?_, ?_, ?_⟩
  · rw [hfinal, ← htake]
  · intro i hi
    rw [hfinal] at hi ⊢
    exact hzero i hi
  · intro i hi hnz
    rw [hfinal] at hi hnz ⊢
    have hilast := hlast i hi hnz
    refine ⟨hilast, ?_⟩
    have hdne : delta ≠ [] := by
      intro h0
      rw [h0] at hi
      simp at hi
    have hexit := hne hdne
    rw [← hilast] at hexit
    -- the run's exit code: the install failure makes the extra-files
    -- pass a no-op, so the returned code is the install loop's
    have hback : (changeClonedDependenciesTo env sfuel lfuel p ty opts).1 =
        (runInstalls env
          (mainLoop env sfuel ty (opts.recursive.getD true) (opts.forceInstall.getD false)
            lfuel (addPackagePaths env opts (packagePathsToAdd p opts) {})).folderPathsToRunNPMInstallIn
          (mainLoop env sfuel ty (opts.recursive.getD true) (opts.forceInstall.getD false)
            lfuel (addPackagePaths env opts (packagePathsToAdd p opts) {}))).exitCode := by
      unfold changeClonedDependenciesTo
      dsimp only
      simp only [hnc, Bool.false_eq_true, if_false]
      split
      · rename_i hguard
        rw [Bool.and_eq_true] at hguard
        have h0 : (runInstalls env
            (mainLoop env sfuel ty (opts.recursive.getD true) (opts.forceInstall.getD false)
              lfuel (addPackagePaths env opts (packagePathsToAdd p opts) {})).folderPathsToRunNPMInstallIn
            (mainLoop env sfuel ty (opts.recursive.getD true) (opts.forceInstall.getD false)
              lfuel (addPackagePaths env opts (packagePathsToAdd p opts) {}))).exitCode = 0 := by
          have := hguard.1
          simpa using this
        rw [h0] at hexit
        exact absurd hexit.symm hnz
      · rfl
    rw [hback, hexit]
  · intro hallz
    rw [hfinal]
    exact hall hallz

/-- C7 witness: in the sample `local` run every scheduled install
succeeds, so the install pass covers the whole schedule in order. -/
theorem install_pass_fail_fast_witness :
    (changeClonedDependenciesTo sampleEnv 10 10 "r/a" DepedencyType.strLocal {}).2.installCalls =
      (mainLoop sampleEnv 10 DepedencyType.strLocal true false 10
        (addPackagePaths sampleEnv {} (packagePathsToAdd "r/a" {}) {})).folderPathsToRunNPMInstallIn :=
  (install_pass_fail_fast sampleEnv 10 10 "r/a" DepedencyType.strLocal {} (by decide)).2.2.2
    (by decide)

/-! ## C8: the extra-files pass -/

/-- C8: the extra-files pass runs only when the exit code so far is 0 (a
non-zero code leaves the extra-file write log empty); a missing extra
file stops the pass with exit code 2, the state otherwise untouched, and
later extra files are not processed; and every write of the pass records
an original content and writes back exactly its rewrite, only when the
rewritten content differs from the original. -/
theorem extra_files_pass (env : Env) (sfuel lfuel : Nat) (p : String)
    (ty : DepedencyType) (opts : ChangeClonedDependenciesToOptions)
    (st : RunState) (f : String) (fs rest : List String) :
    ((runInstalls env
        (mainLoop env sfuel ty (opts.recursive.getD true) (opts.forceInstall.getD false)
          lfuel (addPackagePaths env opts (packagePathsToAdd p opts) {})).folderPathsToRunNPMInstallIn
        (mainLoop env sfuel ty (opts.recursive.getD true) (opts.forceInstall.getD false)
          lfuel (addPackagePaths env opts (packagePathsToAdd p opts) {}))).exitCode ≠ 0 →
      (changeClonedDependenciesTo env sfuel lfuel p ty opts).2.extraFileWrites = []) ∧
    (fileExistsS env st f = false →
      updateExtraFiles env (f :: rest) st = { st with exitCode := 2 }) ∧
    (∀ w ∈ (updateExtraFiles env fs st).extraFileWrites,
      w ∈ st.extraFileWrites ∨
        (w.2.2 = updateExtraFileContents env st.clonedPackages w.2.1 ∧ w.2.2 ≠ w.2.1)) := by
  refine ⟨?_, ?_, ?_⟩
  · intro hnz
    have hph : (addPackagePaths env opts (packagePathsToAdd p opts)
        ({} : RunState)).extraFileWrites = [] :=
      (addPackagePaths_frame env opts (packagePathsToAdd p opts) {}).2.2.2.2.2.1
    have hml := (mainLoop_installs_extras_exit env sfuel ty (opts.recursive.getD true)
      (opts.forceInstall.getD false) lfuel
      (addPackagePaths env opts (packagePathsToAdd p opts) {})).2.1
    have hri := (runInstalls_frame env
      (mainLoop env sfuel ty (opts.recursive.getD true) (opts.forceInstall.getD false)
        lfuel (addPackagePaths env opts (packagePathsToAdd p opts) {})).folderPathsToRunNPMInstallIn
      (mainLoop env sfuel ty (opts.recursive.getD true) (opts.forceInstall.getD false)
        lfuel (addPackagePaths env opts (packagePathsToAdd p opts) {}))).2.2.2.2.2.1
    have hstI : (runInstalls env
        (mainLoop env sfuel ty (opts.recursive.getD true) (opts.forceInstall.getD false)
          lfuel (addPackagePaths env opts (packagePathsToAdd p opts) {})).folderPathsToRunNPMInstallIn
        (mainLoop env sfuel ty (opts.recursive.getD true) (opts.forceInstall.getD false)
          lfuel (addPackagePaths env opts (packagePathsToAdd p opts) {}))).extraFileWrites = [] :=
      (hri.trans hml).trans hph
    unfold changeClonedDependenciesTo
    dsimp only
    split
    · exact hml.trans hph
    · split
      · rename_i hguard
        rw [Bool.and_eq_true] at hguard
        exact absurd (by simpa using hguard.1) hnz
      · exact hstI
  · intro hmiss
    have : (!fileExistsS env st f) = true := by simp [hmiss]
    simp [updateExtraFiles, this]
  · induction fs generalizing st with
    | nil =>
      intro w hw
      exact Or.inl hw
    | cons x xs ih =>
      intro w hw
      unfold updateExtraFiles at hw
      split at hw
      · exact Or.inl hw
      · dsimp only at hw
        split at hw
        · exact ih st w hw
        · rename_i hneq
          rcases ih _ w hw with h1 | h2
          · simp only [List.mem_append, List.mem_singleton] at h1
            rcases h1 with h1a | h1b
            · exact Or.inl h1a
            · subst h1b
              refine Or.inr ⟨rfl, ?_⟩
              intro hcontr
              exact absurd (by simpa using hcontr.symm : (readFileS env st x ==
                updateExtraFileContents env st.clonedPackages (readFileS env st x)) = true)
                (by simpa using hneq)
          · exact Or.inr h2

/-- C8 witness: a missing extra file (`zzz`) aborts the pass with exit
code 2, leaving the remaining extra file unprocessed. -/
theorem extra_files_pass_witness :
    updateExtraFiles sampleEnv ["zzz", "boo"] {} = { ({} : RunState) with exitCode := 2 } :=
  (extra_files_pass sampleEnv 0 0 "r/a" DepedencyType.strLocal {} {} "zzz" [] ["boo"]).2.1
    (by decide)

/-! ## C5: manifest and lock file written at most once per folder -/

theorem setKey_lookup_self {α : Type} (m : List (String × α)) (k : String) (v : α)
    (h : lookupKey m k = some v) : setKey m k v = m := by
  induction m with
  | nil => simp [lookupKey] at h
  | cons e m ih =>
    rw [lookupKey_cons] at h
    cases he : (e.1 == k)
    · rw [he] at h
      simp only [Bool.false_eq_true, if_false] at h
      simp [setKey, he, ih h]
    · rw [he] at h
      simp only [if_pos] at h
      cases h
      have hk : e.1 = k := by simpa using he
      have hev : (k, e.2) = e := by rw [← hk]
      simp only [setKey, he, if_pos]
      rw [hev]

theorem lastWrite_append_single {α : Type} (w : List (String × α)) (p path : String)
    (v : α) :
    lastWrite (w ++ [(p, v)]) path = if p == path then some v else lastWrite w path := by
  unfold lastWrite
  rw [List.reverse_append]
  cases h : (p == path) <;> simp [h, List.find?_cons]

theorem readManifestW_append_same (env : Env) (mws : List (String × PackageJson))
    (p : String) (v : PackageJson) : readManifestW env (mws ++ [(p, v)]) p = v := by
  simp [readManifestW, lastWrite_append_single]

theorem readManifestW_append_ne (env : Env) (mws : List (String × PackageJson))
    (p : String) (v : PackageJson) (path : String) (h : p ≠ path) :
    readManifestW env (mws ++ [(p, v)]) path = readManifestW env mws path := by
  have hb : (p == path) = false := by simpa using h
  simp [readManifestW, lastWrite_append_single, hb]

theorem joinPath_right_injective {a b : String} (s : String)
    (h : joinPath a s = joinPath b s) : a = b := by
  unfold joinPath at h
  have h2 : (a ++ "/" ++ s).data = (b ++ "/" ++ s).data := congrArg String.data h
  simp only [String.data_append] at h2
  rw [List.append_assoc, List.append_assoc] at h2
  have h3 : a.data = b.data := List.append_cancel_right h2
  cases a
  cases b
  exact congrArg String.mk h3

theorem sameCore_refl (d : ClonedPackage) : SameCore d d := ⟨rfl, rfl, rfl, rfl⟩

theorem sameCore_comp {a b c : ClonedPackage} (h1 : SameCore a b) (h2 : SameCore b c) :
    SameCore a c :=
  ⟨h2.1.trans h1.1, h2.2.1.trans h1.2.1, h2.2.2.1.trans h1.2.2.1, h2.2.2.2.trans h1.2.2.2⟩

theorem canon_congr (env : Env) (ty : DepedencyType) (n : String)
    {d d' : ClonedPackage} (h : SameCore d d') : canon env ty n d' = canon env ty n d := by
  cases ty
  · simp [canon, h.1]
  · simp [canon, h.2.1]

theorem cacheEvol_refl (env : Env) (ty : DepedencyType)
    (c : List (String × Option ClonedPackage)) : CacheEvol env ty c c :=
  fun _ => Or.inl rfl

theorem CacheEvol.trans {env : Env} {ty : DepedencyType}
    {c1 c2 c3 : List (String × Option ClonedPackage)}
    (h12 : CacheEvol env ty c1 c2) (h23 : CacheEvol env ty c2 c3) :
    CacheEvol env ty c1 c3 := by
  intro k
  rcases h12 k with he | ⟨hn, hs⟩ | ⟨d, d', hd, hd', hcore, htv⟩
  · rcases h23 k with he' | ⟨hn', hs'⟩ | ⟨e, e', he1, he2, hcore', htv'⟩
    · exact Or.inl (he'.trans he)
    · exact Or.inr (Or.inl ⟨he ▸ hn', hs'⟩)
    · exact Or.inr (Or.inr ⟨e, e', he ▸ he1, he2, hcore', htv'⟩)
  · rcases h23 k with he' | ⟨hn', hs'⟩ | ⟨e, e', he1, he2, hcore', htv'⟩
    · exact Or.inr (Or.inl ⟨hn, he' ▸ hs⟩)
    · rw [hn'] at hs
      simp at hs
    · exact Or.inr (Or.inl ⟨hn, by rw [he2]; rfl⟩)
  · rcases h23 k with he' | ⟨hn', hs'⟩ | ⟨e, e', he1, he2, hcore', htv'⟩
    · exact Or.inr (Or.inr ⟨d, d', hd, he' ▸ hd', hcore, htv⟩)
    · rw [hn'] at hd'
      simp at hd'
    · rw [hd'] at he1
      cases he1
      refine Or.inr (Or.inr ⟨d, e', hd, he2, sameCore_comp hcore hcore', ?_⟩)
      rcases htv' with h1 | ⟨h2a, h2b⟩
      · rcases htv with g1 | ⟨g2a, g2b⟩
        · exact Or.inl (h1.trans g1)
        · exact Or.inr ⟨g2a, h1.trans g2b⟩
      · rcases htv with g1 | ⟨g2a, g2b⟩
        · refine Or.inr ⟨g1 ▸ h2a, ?_⟩
          rw [h2b, canon_congr env ty k hcore]
        · refine Or.inr ⟨g2a, ?_⟩
          rw [h2b, canon_congr env ty k hcore]

theorem evol_setKey_fresh (env : Env) (ty : DepedencyType)
    (c : List (String × Option ClonedPackage)) (k : String) (r : Option ClonedPackage)
    (h : lookupKey c k = none) : CacheEvol env ty c (setKey c k r) := by
  intro k'
  by_cases hk : k' = k
  · subst hk
    exact Or.inr (Or.inl ⟨h, by rw [lookupKey_setKey_self]; rfl⟩)
  · exact Or.inl (lookupKey_setKey_ne c r hk)

theorem evol_setKey_updated (env : Env) (ty : DepedencyType)
    (c : List (String × Option ClonedPackage)) (k : String) (d : ClonedPackage)
    (u : Option Bool) (h : lookupKey c k = some (some d)) :
    CacheEvol env ty c (setKey c k (some { d with updated := u })) := by
  intro k'
  by_cases hk : k' = k
  · subst hk
    refine Or.inr (Or.inr ⟨d, { d with updated := u }, h, lookupKey_setKey_self _ _ _,
      ⟨rfl, rfl, rfl, rfl⟩, Or.inl rfl⟩)
  · exact Or.inl (lookupKey_setKey_ne c _ hk)

theorem evol_setKey_canon (env : Env) (ty : DepedencyType)
    (c : List (String × Option ClonedPackage)) (k : String) (d : ClonedPackage)
    (h : lookupKey c k = some (some d)) (hf : truthy d.targetVersion = false) :
    CacheEvol env ty c (setKey c k (some { d with targetVersion := canon env ty k d })) := by
  intro k'
  by_cases hk : k' = k
  · subst hk
    exact Or.inr (Or.inr ⟨d, { d with targetVersion := canon env ty k' d }, h,
      lookupKey_setKey_self _ _ _, ⟨rfl, rfl, rfl, rfl⟩, Or.inr ⟨hf, rfl⟩⟩)
  · exact Or.inl (lookupKey_setKey_ne c _ hk)

theorem evol_present {env : Env} {ty : DepedencyType}
    {c c' : List (String × Option ClonedPackage)} {k : String} {d : ClonedPackage}
    (h : CacheEvol env ty c c') (hd : lookupKey c k = some (some d)) :
    ∃ d', lookupKey c' k = some (some d') ∧ SameCore d d' := by
  rcases h k with he | ⟨hn, _⟩ | ⟨e, e', he1, he2, hcore, _⟩
  · exact ⟨d, he.trans hd, sameCore_refl d⟩
  · rw [hn] at hd
    cases hd
  · rw [hd] at he1
    cases he1
    exact ⟨e', he2, hcore⟩

theorem evol_absent {env : Env} {ty : DepedencyType}
    {c c' : List (String × Option ClonedPackage)} {k : String}
    (h : CacheEvol env ty c c') (hd : lookupKey c k = some none) :
    lookupKey c' k = some none := by
  rcases h k with he | ⟨hn, _⟩ | ⟨e, e', he1, _, _, _⟩
  · exact he.trans hd
  · rw [hn] at hd
    cases hd
  · rw [hd] at he1
    cases he1

theorem EntryUnchanged_evol {env : Env} {ty : DepedencyType}
    {c c' : List (String × Option ClonedPackage)} {ig : Option (List String)}
    {n v : String} (h : EntryUnchanged env ty c ig n v) (he : CacheEvol env ty c c') :
    EntryUnchanged env ty c' ig n v := by
  rcases h with h1 | h2 | ⟨d, hd, hcase⟩
  · exact Or.inl h1
  · exact Or.inr (Or.inl (evol_absent he h2))
  · obtain ⟨d', hd', hcore⟩ := evol_present he hd
    rcases he n with heq | ⟨hn, _⟩ | ⟨e, e', he1, he2, hcore', htv⟩
    · exact Or.inr (Or.inr ⟨d, heq.trans hd, hcase⟩)
    · rw [hn] at hd
      cases hd
    · rw [hd] at he1
      cases he1
      rw [hd'] at he2
      cases he2
      rcases hcase with ⟨ht, hv⟩ | ⟨hf, hcf, hcv⟩
      · rcases htv with h1 | ⟨h2a, _⟩
        · exact Or.inr (Or.inr ⟨d', hd', Or.inl ⟨by rw [h1, ht], by rw [h1, hv]⟩⟩)
        · rw [ht] at h2a
          cases h2a
      · have hcanon : canon env ty n d' = canon env ty n d := canon_congr env ty n hcore'
        rcases htv with h1 | ⟨_, h2b⟩
        · exact Or.inr (Or.inr ⟨d', hd', Or.inr
            ⟨by rw [h1, hf], by rw [hcanon]; exact hcf, by rw [h1, hcv, hcanon]⟩⟩)
        · exact Or.inr (Or.inr ⟨d', hd', Or.inr
            ⟨by rw [h2b, ← hcv, hf], by rw [hcanon]; exact hcf, by rw [h2b, hcanon]⟩⟩)

theorem getDep_cached_none (env : Env) (fuel : Nat) (cp : ClonedPackage)
    (n : String) (ty : DepedencyType) (st : RunState)
    (h : lookupKey st.clonedPackages n = some none) :
    getDependencyTargetVersion env fuel cp n ty st = (none, st) := by
  simp [getDependencyTargetVersion, findPackageM, h]

theorem getDep_cached_truthy (env : Env) (fuel : Nat) (cp : ClonedPackage)
    (n : String) (ty : DepedencyType) (st : RunState) (d : ClonedPackage)
    (h : lookupKey st.clonedPackages n = some (some d))
    (ht : truthy d.targetVersion = true) :
    getDependencyTargetVersion env fuel cp n ty st = (d.targetVersion, st) := by
  simp [getDependencyTargetVersion, findPackageM, h, ht]

theorem getDep_present_falsy (env : Env) (fuel : Nat) (cp : ClonedPackage)
    (n : String) (ty : DepedencyType) (st : RunState) (d : ClonedPackage)
    (h : lookupKey st.clonedPackages n = some (some d))
    (hf : truthy d.targetVersion = false) :
    (getDependencyTargetVersion env fuel cp n ty st).1 = canon env ty n d ∧
    (getDependencyTargetVersion env fuel cp n ty st).2.clonedPackages =
      setKey st.clonedPackages n (some { d with targetVersion := canon env ty n d }) := by
  cases ty <;> simp [getDependencyTargetVersion, findPackageM, h, hf, canon]

theorem getDep_fresh (env : Env) (fuel : Nat) (cp : ClonedPackage)
    (n : String) (ty : DepedencyType) (st : RunState)
    (hl : lookupKey st.clonedPackages n = none) :
    (findPackageSearch env st fuel n cp.path = none →
      (getDependencyTargetVersion env fuel cp n ty st).1 = none ∧
      lookupKey (getDependencyTargetVersion env fuel cp n ty st).2.clonedPackages n
        = some none ∧
      ∀ k, k ≠ n → lookupKey (getDependencyTargetVersion env fuel cp n ty st).2.clonedPackages k
        = lookupKey st.clonedPackages k) ∧
    (∀ depCP, findPackageSearch env st fuel n cp.path = some depCP →
      truthy depCP.targetVersion = true →
      (getDependencyTargetVersion env fuel cp n ty st).1 = depCP.targetVersion ∧
      lookupKey (getDependencyTargetVersion env fuel cp n ty st).2.clonedPackages n
        = some (some depCP) ∧
      ∀ k, k ≠ n → lookupKey (getDependencyTargetVersion env fuel cp n ty st).2.clonedPackages k
        = lookupKey st.clonedPackages k) ∧
    (∀ depCP, findPackageSearch env st fuel n cp.path = some depCP →
      truthy depCP.targetVersion = false →
      (getDependencyTargetVersion env fuel cp n ty st).1 = canon env ty n depCP ∧
      lookupKey (getDependencyTargetVersion env fuel cp n ty st).2.clonedPackages n
        = some (some { depCP with targetVersion := canon env ty n depCP }) ∧
      ∀ k, k ≠ n → lookupKey (getDependencyTargetVersion env fuel cp n ty st).2.clonedPackages k
        = lookupKey st.clonedPackages k) := by
  refine ⟨?_, ?_, ?_⟩
  · intro hres
    simp only [getDependencyTargetVersion, findPackageM, hl, hres]
    exact ⟨trivial, lookupKey_setKey_self _ _ _, fun k hk => lookupKey_setKey_ne _ _ hk⟩
  · intro depCP hres ht
    simp only [getDependencyTargetVersion, findPackageM, hl, hres, ht]
    simp only [if_pos]
    exact ⟨trivial, lookupKey_setKey_self _ _ _, fun k hk => lookupKey_setKey_ne _ _ hk⟩
  · intro depCP hres hf
    cases ty
    · simp only [getDependencyTargetVersion, findPackageM, hl, hres, hf, canon]
      refine ⟨rfl, ?_, ?_⟩
      · rw [if_neg Bool.false_ne_true]
        dsimp only
        rw [lookupKey_setKey_self]
      · intro k hk
        rw [if_neg Bool.false_ne_true]
        dsimp only
        rw [lookupKey_setKey_ne _ _ hk, lookupKey_setKey_ne _ _ hk]
    · simp only [getDependencyTargetVersion, findPackageM, hl, hres, hf, canon]
      refine ⟨rfl, ?_, ?_⟩
      · rw [if_neg Bool.false_ne_true]
        dsimp only
        rw [lookupKey_setKey_self]
      · intro k hk
        rw [if_neg Bool.false_ne_true]
        dsimp only
        rw [lookupKey_setKey_ne _ _ hk, lookupKey_setKey_ne _ _ hk]

theorem getDep_evol (env : Env) (fuel : Nat) (cp : ClonedPackage)
    (n : String) (ty : DepedencyType) (st : RunState) :
    CacheEvol env ty st.clonedPackages
      (getDependencyTargetVersion env fuel cp n ty st).2.clonedPackages := by
  cases hl : lookupKey st.clonedPackages n with
  | none =>
    have hfr := getDep_fresh env fuel cp n ty st hl
    intro k
    by_cases hk : k = n
    · rw [hk]
      cases hres : findPackageSearch env st fuel n cp.path with
      | none =>
        refine Or.inr (Or.inl ⟨hl, ?_⟩)
        rw [(hfr.1 hres).2.1]
        rfl
      | some depCP =>
        cases ht : truthy depCP.targetVersion
        · refine Or.inr (Or.inl ⟨hl, ?_⟩)
          rw [(hfr.2.2 depCP hres ht).2.1]
          rfl
        · refine Or.inr (Or.inl ⟨hl, ?_⟩)
          rw [(hfr.2.1 depCP hres ht).2.1]
          rfl
    · cases hres : findPackageSearch env st fuel n cp.path with
      | none => exact Or.inl ((hfr.1 hres).2.2 k hk)
      | some depCP =>
        cases ht : truthy depCP.targetVersion
        · exact Or.inl ((hfr.2.2 depCP hres ht).2.2 k hk)
        · exact Or.inl ((hfr.2.1 depCP hres ht).2.2 k hk)
  | some r =>
    cases r with
    | none => rw [getDep_cached_none env fuel cp n ty st hl]; exact cacheEvol_refl env ty _
    | some d =>
      cases ht : truthy d.targetVersion
      · have hpf := getDep_present_falsy env fuel cp n ty st d hl ht
        rw [hpf.2]
        exact evol_setKey_canon env ty _ n d hl ht
      · rw [getDep_cached_truthy env fuel cp n ty st d hl ht]
        exact cacheEvol_refl env ty _

/-- A cache entry freshly stored as a canonical target version makes its
manifest entry `EntryUnchanged` for the version the update loop leaves
behind. -/
theorem entryUnchanged_of_stored (env : Env) (ty : DepedencyType)
    (c : List (String × Option ClonedPackage)) (n : String) (D : ClonedPackage)
    (v : String) (ig : Option (List String))
    (hc : lookupKey c n = some (some ({ D with targetVersion := canon env ty n D }))) :
    EntryUnchanged env ty c ig n
      (match canon env ty n D with
       | some t => if t != "" && v != t then t else v
       | none => v) := by
  have hcore : SameCore D { D with targetVersion := canon env ty n D } :=
    ⟨rfl, rfl, rfl, rfl⟩
  have hcanon : canon env ty n ({ D with targetVersion := canon env ty n D }) =
      canon env ty n D := canon_congr env ty n hcore
  cases hcv : canon env ty n D with
  | none =>
    refine Or.inr (Or.inr ⟨_, hc, Or.inr ⟨?_, ?_, ?_⟩⟩)
    · simp [hcv, truthy]
    · rw [hcanon, hcv]
      rfl
    · exact hcanon.symm
  | some t =>
    cases htt : (t != "")
    · have : truthy (some t) = false := by simpa [truthy] using htt
      refine Or.inr (Or.inr ⟨_, hc, Or.inr ⟨?_, ?_, ?_⟩⟩)
      · simpa [hcv] using this
      · rw [hcanon, hcv]
        exact this
      · exact hcanon.symm
    · simp only [htt, Bool.true_and]
      cases hvt : (v != t)
      · have hv : v = t := by simpa using hvt
        refine Or.inr (Or.inr ⟨_, hc, Or.inl ⟨?_, ?_⟩⟩)
        · simp [hcv, truthy, htt]
        · simp [hcv, hv]
      · refine Or.inr (Or.inr ⟨_, hc, Or.inl ⟨?_, ?_⟩⟩)
        · simp [hcv, truthy, htt]
        · simp [hcv]

/-- A cache entry with a truthy stored target version makes its manifest
entry `EntryUnchanged` for the version the update loop leaves behind. -/
theorem entryUnchanged_of_truthy (env : Env) (ty : DepedencyType)
    (c : List (String × Option ClonedPackage)) (n : String) (d : ClonedPackage)
    (v t : String) (ig : Option (List String))
    (hc : lookupKey c n = some (some d))
    (htv : d.targetVersion = some t)
    (ht : truthy d.targetVersion = true) :
    EntryUnchanged env ty c ig n (if t != "" && v != t then t else v) := by
  have htt : (t != "") = true := by simpa [htv, truthy] using ht
  cases hvt : (v != t)
  · have hv : v = t := by simpa using hvt
    simp only [hvt, Bool.and_false, if_neg Bool.false_ne_true]
    exact Or.inr (Or.inr ⟨d, hc, Or.inl ⟨ht, by rw [htv, hv]⟩⟩)
  · simp only [hvt, htt, Bool.and_true, if_pos rfl]
    exact Or.inr (Or.inr ⟨d, hc, Or.inl ⟨ht, htv⟩⟩)

/-- After resolving a dependency name, the (possibly rewritten) manifest
entry for that name is `EntryUnchanged` in the resulting cache: a second
pass over it would change nothing further. -/
theorem getDep_entry_post (env : Env) (fuel : Nat) (cp : ClonedPackage)
    (n : String) (ty : DepedencyType) (st : RunState)
    (ig : Option (List String)) (v : String) :
    EntryUnchanged env ty (getDependencyTargetVersion env fuel cp n ty st).2.clonedPackages ig n
      (match (getDependencyTargetVersion env fuel cp n ty st).1 with
       | some t => if t != "" && v != t then t else v
       | none => v) := by
  cases hl : lookupKey st.clonedPackages n with
  | none =>
    have hfr := getDep_fresh env fuel cp n ty st hl
    cases hres : findPackageSearch env st fuel n cp.path with
    | none =>
      rcases hfr.1 hres with ⟨h1, h2, _⟩
      rw [h1]
      exact Or.inr (Or.inl h2)
    | some depCP =>
      cases ht : truthy depCP.targetVersion
      · rcases hfr.2.2 depCP hres ht with ⟨h1, h2, _⟩
        rw [h1]
        exact entryUnchanged_of_stored env ty _ n depCP v ig h2
      · rcases hfr.2.1 depCP hres ht with ⟨h1, h2, _⟩
        rw [h1]
        obtain ⟨t, htv⟩ : ∃ t, depCP.targetVersion = some t := by
          cases h : depCP.targetVersion
          · rw [h] at ht; simp [truthy] at ht
          · exact ⟨_, rfl⟩
        rw [htv]
        exact entryUnchanged_of_truthy env ty _ n depCP v t ig h2 htv ht
  | some r =>
    cases r with
    | none =>
      rw [getDep_cached_none env fuel cp n ty st hl]
      exact Or.inr (Or.inl hl)
    | some d =>
      cases ht : truthy d.targetVersion
      · have hpf := getDep_present_falsy env fuel cp n ty st d hl ht
        rw [hpf.1]
        have hc : lookupKey (getDependencyTargetVersion env fuel cp n ty st).2.clonedPackages n
            = some (some ({ d with targetVersion := canon env ty n d })) := by
          rw [hpf.2]; exact lookupKey_setKey_self _ _ _
        exact entryUnchanged_of_stored env ty _ n d v ig hc
      · rw [getDep_cached_truthy env fuel cp n ty st d hl ht]
        obtain ⟨t, htv⟩ : ∃ t, d.targetVersion = some t := by
          cases h : d.targetVersion
          · rw [h] at ht; simp [truthy] at ht
          · exact ⟨_, rfl⟩
        rw [htv]
        exact entryUnchanged_of_truthy env ty _ n d v t ig hl htv ht

/-- Resolving an `EntryUnchanged` dependency leaves the cache equal and
returns a target version that fails the rewrite guard. -/
theorem getDep_unchanged (env : Env) (fuel : Nat) (cp : ClonedPackage)
    (n : String) (ty : DepedencyType) (st : RunState) (v : String)
    (hu : EntryUnchanged env ty st.clonedPackages cp.dependenciesToIgnore n v)
    (hni : inIgnoreList cp.dependenciesToIgnore n = false) :
    (getDependencyTargetVersion env fuel cp n ty st).2.clonedPackages = st.clonedPackages ∧
    (match (getDependencyTargetVersion env fuel cp n ty st).1 with
     | some t => ((t != "") && (v != t)) = false
     | none => True) := by
  rcases hu with hig | habs | ⟨d, hc, hcase⟩
  · rw [hig] at hni; cases hni
  · rw [getDep_cached_none env fuel cp n ty st habs]
    exact ⟨rfl, trivial⟩
  · rcases hcase with ⟨ht, htv⟩ | ⟨hf, hcf, htv⟩
    · rw [getDep_cached_truthy env fuel cp n ty st d hc ht, htv]
      exact ⟨rfl, by simp⟩
    · have hpf := getDep_present_falsy env fuel cp n ty st d hc hf
      have heta : ({ d with targetVersion := canon env ty n d }) = d := by
        rw [← htv]
      refine ⟨?_, ?_⟩
      · rw [hpf.2, heta]
        exact setKey_lookup_self st.clonedPackages n (some d) hc
      · rw [hpf.1]
        cases hcv : canon env ty n d with
        | none => exact trivial
        | some t =>
          have : (t != "") = false := by
            rw [hcv] at hcf
            simpa [truthy] using hcf
          simp [this]

/-- Across one pass of the update loop the cache only evolves, and every
entry of the rewritten dependency map is `EntryUnchanged` in the final
cache: reprocessing the rewritten map would change nothing. -/
theorem updL_evol_post (env : Env) (fuel : Nat) (cp : ClonedPackage)
    (ty : DepedencyType) (deps : List (String × String)) (st : RunState) :
    CacheEvol env ty st.clonedPackages
      (updateDependenciesList env fuel cp ty deps st).2.2.clonedPackages ∧
    ∀ e ∈ (updateDependenciesList env fuel cp ty deps st).1,
      EntryUnchanged env ty
        (updateDependenciesList env fuel cp ty deps st).2.2.clonedPackages
        cp.dependenciesToIgnore e.1 e.2 := by
  induction deps generalizing st with
  | nil => exact ⟨cacheEvol_refl env ty _, by simp [updateDependenciesList]⟩
  | cons e rest ih =>
    rcases e with ⟨n, v⟩
    by_cases hig : inIgnoreList cp.dependenciesToIgnore n
    · have h := ih st
      have hres1 : (updateDependenciesList env fuel cp ty ((n, v) :: rest) st).1
          = (n, v) :: (updateDependenciesList env fuel cp ty rest st).1 := by
        simp [updateDependenciesList, hig]
      have hres2 : (updateDependenciesList env fuel cp ty ((n, v) :: rest) st).2.2
          = (updateDependenciesList env fuel cp ty rest st).2.2 := by
        simp [updateDependenciesList, hig]
      refine ⟨by rw [hres2]; exact h.1, ?_⟩
      rw [hres1, hres2]
      intro e he
      rcases List.mem_cons.mp he with rfl | hmem
      · exact Or.inl hig
      · exact h.2 e hmem
    · rcases hr : getDependencyTargetVersion env fuel cp n ty st with ⟨tv, st1⟩
      have hevol1 : CacheEvol env ty st.clonedPackages st1.clonedPackages := by
        have h0 := getDep_evol env fuel cp n ty st
        rwa [hr] at h0
      have hpost := getDep_entry_post env fuel cp n ty st cp.dependenciesToIgnore v
      rw [hr] at hpost
      have h := ih st1
      rcases tv with _ | target
      · have hres1 : (updateDependenciesList env fuel cp ty ((n, v) :: rest) st).1
            = (n, v) :: (updateDependenciesList env fuel cp ty rest st1).1 := by
          simp [updateDependenciesList, hig, hr]
        have hres2 : (updateDependenciesList env fuel cp ty ((n, v) :: rest) st).2.2
            = (updateDependenciesList env fuel cp ty rest st1).2.2 := by
          simp [updateDependenciesList, hig, hr]
        refine ⟨by rw [hres2]; exact hevol1.trans h.1, ?_⟩
        rw [hres1, hres2]
        intro e he
        rcases List.mem_cons.mp he with rfl | hmem
        · exact EntryUnchanged_evol (by simpa using hpost) h.1
        · exact h.2 e hmem
      · cases hch : ((target != "") && (v != target))
        · have hres1 : (updateDependenciesList env fuel cp ty ((n, v) :: rest) st).1
              = (n, v) :: (updateDependenciesList env fuel cp ty rest st1).1 := by
            simp [updateDependenciesList, hig, hr, hch]
          have hres2 : (updateDependenciesList env fuel cp ty ((n, v) :: rest) st).2.2
              = (updateDependenciesList env fuel cp ty rest st1).2.2 := by
            simp [updateDependenciesList, hig, hr, hch]
          refine ⟨by rw [hres2]; exact hevol1.trans h.1, ?_⟩
          rw [hres1, hres2]
          intro e he
          rcases List.mem_cons.mp he with rfl | hmem
          · have hpost' : EntryUnchanged env ty st1.clonedPackages
                cp.dependenciesToIgnore n v := by
              simpa [hch] using hpost
            exact EntryUnchanged_evol hpost' h.1
          · exact h.2 e hmem
        · have hres1 : (updateDependenciesList env fuel cp ty ((n, v) :: rest) st).1
              = (n, target) :: (updateDependenciesList env fuel cp ty rest st1).1 := by
            simp [updateDependenciesList, hig, hr, hch]
          have hres2 : (updateDependenciesList env fuel cp ty ((n, v) :: rest) st).2.2
              = (updateDependenciesList env fuel cp ty rest st1).2.2 := by
            simp [updateDependenciesList, hig, hr, hch]
          refine ⟨by rw [hres2]; exact hevol1.trans h.1, ?_⟩
          rw [hres1, hres2]
          intro e he
          rcases List.mem_cons.mp he with rfl | hmem
          · have hpost' : EntryUnchanged env ty st1.clonedPackages
                cp.dependenciesToIgnore n target := by
              simpa [hch] using hpost
            exact EntryUnchanged_evol hpost' h.1
          · exact h.2 e hmem

/-- A pass of the update loop over a dependency map all of whose entries
are `EntryUnchanged` rewrites nothing: the map is returned verbatim, there
are no changed names, and the cache is left equal. -/
theorem updL_unchanged (env : Env) (fuel : Nat) (cp : ClonedPackage)
    (ty : DepedencyType) (deps : List (String × String)) (st : RunState)
    (hu : ∀ e ∈ deps,
      EntryUnchanged env ty st.clonedPackages cp.dependenciesToIgnore e.1 e.2) :
    (updateDependenciesList env fuel cp ty deps st).1 = deps ∧
    (updateDependenciesList env fuel cp ty deps st).2.1 = [] ∧
    (updateDependenciesList env fuel cp ty deps st).2.2.clonedPackages
      = st.clonedPackages := by
  revert hu
  induction deps generalizing st with
  | nil => intro hu; simp [updateDependenciesList]
  | cons e rest ih =>
    intro hu
    rcases e with ⟨n, v⟩
    by_cases hig : inIgnoreList cp.dependenciesToIgnore n
    · have h := ih st (fun e he => hu e (List.mem_cons_of_mem _ he))
      refine ⟨?_, ?_, ?_⟩ <;>
        simp [updateDependenciesList, hig, h.1, h.2.1, h.2.2]
    · have hig' : inIgnoreList cp.dependenciesToIgnore n = false := by
        simpa using hig
      have hu0 := hu (n, v) (List.mem_cons_self _ _)
      have hgu := getDep_unchanged env fuel cp n ty st v hu0 hig'
      rcases hr : getDependencyTargetVersion env fuel cp n ty st with ⟨tv, st1⟩
      rw [hr] at hgu
      have hcaches : st1.clonedPackages = st.clonedPackages := hgu.1
      have h := ih st1 (by
        rw [hcaches]; exact fun e he => hu e (List.mem_cons_of_mem _ he))
      rcases tv with _ | target
      · refine ⟨?_, ?_, ?_⟩ <;>
          simp [updateDependenciesList, hig, hr, h.1, h.2.1, h.2.2, hcaches]
      · have hch : ((target != "") && (v != target)) = false := hgu.2
        refine ⟨?_, ?_, ?_⟩ <;>
          simp [updateDependenciesList, hig, hr, hch, h.1, h.2.1, h.2.2, hcaches]

theorem findPackageM_crashed (env : Env) (fuel : Nat) (n sp : String)
    (st : RunState) : (findPackageM env fuel n sp st).2.crashed = st.crashed := by
  unfold findPackageM
  cases h : lookupKey st.clonedPackages n <;> simp [h]

theorem getDep_crashed (env : Env) (fuel : Nat) (cp : ClonedPackage)
    (n : String) (ty : DepedencyType) (st : RunState) :
    (getDependencyTargetVersion env fuel cp n ty st).2.crashed = st.crashed := by
  have hfm := findPackageM_crashed env fuel n cp.path st
  unfold getDependencyTargetVersion
  rcases hr : findPackageM env fuel n cp.path st with ⟨o, st1⟩
  rw [hr] at hfm
  cases o with
  | none => exact hfm
  | some depCP =>
    cases ht : truthy depCP.targetVersion
    · simp only [ht, Bool.false_eq_true, if_neg Bool.false_ne_true]
      cases ty <;> exact hfm
    · simp only [ht, if_pos rfl]
      exact hfm

theorem updL_crashed (env : Env) (fuel : Nat) (cp : ClonedPackage)
    (ty : DepedencyType) (deps : List (String × String)) (st : RunState) :
    (updateDependenciesList env fuel cp ty deps st).2.2.crashed = st.crashed := by
  induction deps generalizing st with
  | nil => rfl
  | cons e rest ih =>
    rcases e with ⟨n, v⟩
    by_cases hig : inIgnoreList cp.dependenciesToIgnore n
    · simpa [updateDependenciesList, hig] using ih st
    · have hgd := getDep_crashed env fuel cp n ty st
      rcases hr : getDependencyTargetVersion env fuel cp n ty st with ⟨tv, st1⟩
      rw [hr] at hgd
      rcases tv with _ | target
      · simpa [updateDependenciesList, hig, hr] using (ih st1).trans hgd
      · by_cases hch : target != "" && v != target
        · simpa [updateDependenciesList, hig, hr, hch] using (ih st1).trans hgd
        · simpa [updateDependenciesList, hig, hr, hch] using (ih st1).trans hgd

theorem updD_crashed (env : Env) (fuel : Nat) (cp : ClonedPackage)
    (deps : Option (List (String × String))) (ty : DepedencyType) (st : RunState) :
    (updateDependencies env fuel cp deps ty st).2.2.crashed = st.crashed := by
  cases deps with
  | none => rfl
  | some l => simpa [updateDependencies] using updL_crashed env fuel cp ty l st

/-- `updL_evol_post` lifted through the `undefined`-map wrapper. -/
theorem updD_evol_post (env : Env) (fuel : Nat) (cp : ClonedPackage)
    (deps : Option (List (String × String))) (ty : DepedencyType) (st : RunState) :
    CacheEvol env ty st.clonedPackages
      (updateDependencies env fuel cp deps ty st).2.2.clonedPackages ∧
    ∀ e ∈ ((updateDependencies env fuel cp deps ty st).1.getD []),
      EntryUnchanged env ty
        (updateDependencies env fuel cp deps ty st).2.2.clonedPackages
        cp.dependenciesToIgnore e.1 e.2 := by
  cases deps with
  | none => exact ⟨cacheEvol_refl env ty _, by simp [updateDependencies]⟩
  | some l =>
    have h := updL_evol_post env fuel cp ty l st
    exact ⟨h.1, fun e he => h.2 e (by simpa [updateDependencies] using he)⟩

/-- `updL_unchanged` lifted through the `undefined`-map wrapper. -/
theorem updD_unchanged (env : Env) (fuel : Nat) (cp : ClonedPackage)
    (deps : Option (List (String × String))) (ty : DepedencyType) (st : RunState)
    (hu : ∀ e ∈ deps.getD [],
      EntryUnchanged env ty st.clonedPackages cp.dependenciesToIgnore e.1 e.2) :
    (updateDependencies env fuel cp deps ty st).1 = deps ∧
    (updateDependencies env fuel cp deps ty st).2.1 = [] ∧
    (updateDependencies env fuel cp deps ty st).2.2.clonedPackages
      = st.clonedPackages := by
  cases deps with
  | none => exact ⟨rfl, rfl, rfl⟩
  | some l =>
    have h := updL_unchanged env fuel cp ty l st (by simpa using hu)
    refine ⟨?_, ?_, ?_⟩ <;> simp [updateDependencies, h.1, h.2.1, h.2.2]

/-- On a present cache entry, `processFolder` computes `pfResult`. -/
theorem processFolder_eq (env : Env) (sfuel : Nat) (ty : DepedencyType)
    (fi : Bool) (fp : String) (st : RunState) (d0 : ClonedPackage)
    (h : lookupKey st.clonedPackages
        (bangName (readPackageJsonS env st (joinPath fp "package.json")).name)
      = some (some d0)) :
    processFolder env sfuel ty fi fp st = pfResult env sfuel ty fi fp st d0 := by
  have h' : (lookupKey st.clonedPackages
      (bangName (readPackageJsonS env st (joinPath fp "package.json")).name)).join
      = some d0 := by rw [h]; rfl
  unfold processFolder pfResult pfR2 pfR1 pfPJ pfSt1 pfCP
  dsimp only
  rw [h']
  rfl

/-- On a missing or cached-absent entry, `processFolder` only raises the
crash flag. -/
theorem processFolder_crash (env : Env) (sfuel : Nat) (ty : DepedencyType)
    (fi : Bool) (fp : String) (st : RunState)
    (h : (lookupKey st.clonedPackages
        (bangName (readPackageJsonS env st (joinPath fp "package.json")).name)).join
      = none) :
    (processFolder env sfuel ty fi fp st).1 = { st with crashed := true } := by
  unfold processFolder
  dsimp only
  rw [h]

theorem pfR2_preserves (env : Env) (sfuel : Nat) (ty : DepedencyType)
    (fp : String) (st : RunState) (d0 : ClonedPackage) :
    ResolvePreserves st (pfR2 env sfuel ty fp st d0).2.2 := by
  unfold pfR2 pfR1 pfSt1
  exact processFolder_resolve_preserves env sfuel ty st (pfCP d0) _ _ _

theorem pfR2_crashed (env : Env) (sfuel : Nat) (ty : DepedencyType)
    (fp : String) (st : RunState) (d0 : ClonedPackage) :
    (pfR2 env sfuel ty fp st d0).2.2.crashed = st.crashed := by
  unfold pfR2 pfR1 pfSt1
  rw [updD_crashed, updD_crashed]

theorem pf_evol (env : Env) (sfuel : Nat) (ty : DepedencyType)
    (fp : String) (st : RunState) (d0 : ClonedPackage)
    (h : lookupKey st.clonedPackages
        (bangName (readPackageJsonS env st (joinPath fp "package.json")).name)
      = some (some d0)) :
    CacheEvol env ty st.clonedPackages
      (pfR2 env sfuel ty fp st d0).2.2.clonedPackages := by
  have e1 : CacheEvol env ty st.clonedPackages (pfSt1 env fp st d0).clonedPackages :=
    evol_setKey_updated env ty st.clonedPackages _ d0 (some true) h
  have e2 := (updD_evol_post env sfuel (pfCP d0)
    (readPackageJsonS env st (joinPath fp "package.json")).dependencies ty
    (pfSt1 env fp st d0)).1
  have e3 := (updD_evol_post env sfuel (pfCP d0)
    (readPackageJsonS env st (joinPath fp "package.json")).devDependencies ty
    (pfR1 env sfuel ty fp st d0).2.2).1
  exact e1.trans (e2.trans e3)

theorem pf_post (env : Env) (sfuel : Nat) (ty : DepedencyType)
    (fp : String) (st : RunState) (d0 : ClonedPackage) :
    ∀ e ∈ ((pfPJ env sfuel ty fp st d0).dependencies.getD [] ++
        (pfPJ env sfuel ty fp st d0).devDependencies.getD []),
      EntryUnchanged env ty (pfR2 env sfuel ty fp st d0).2.2.clonedPackages
        d0.dependenciesToIgnore e.1 e.2 := by
  intro e he
  rcases List.mem_append.mp he with h1 | h2
  · have hp := (updD_evol_post env sfuel (pfCP d0)
      (readPackageJsonS env st (joinPath fp "package.json")).dependencies ty
      (pfSt1 env fp st d0)).2 e h1
    exact EntryUnchanged_evol hp (updD_evol_post env sfuel (pfCP d0)
      (readPackageJsonS env st (joinPath fp "package.json")).devDependencies ty
      (pfR1 env sfuel ty fp st d0).2.2).1
  · exact (updD_evol_post env sfuel (pfCP d0)
      (readPackageJsonS env st (joinPath fp "package.json")).devDependencies ty
      (pfR1 env sfuel ty fp st d0).2.2).2 e h2

theorem pf_present (env : Env) (sfuel : Nat) (ty : DepedencyType)
    (fp : String) (st : RunState) (d0 : ClonedPackage) :
    ∃ d', lookupKey (pfR2 env sfuel ty fp st d0).2.2.clonedPackages
        (bangName (readPackageJsonS env st (joinPath fp "package.json")).name)
      = some (some d') ∧ SameCore d0 d' := by
  have h1 : lookupKey (pfSt1 env fp st d0).clonedPackages
      (bangName (readPackageJsonS env st (joinPath fp "package.json")).name)
      = some (some (pfCP d0)) := lookupKey_setKey_self _ _ _
  have e2 := (updD_evol_post env sfuel (pfCP d0)
    (readPackageJsonS env st (joinPath fp "package.json")).dependencies ty
    (pfSt1 env fp st d0)).1
  have e3 := (updD_evol_post env sfuel (pfCP d0)
    (readPackageJsonS env st (joinPath fp "package.json")).devDependencies ty
    (pfR1 env sfuel ty fp st d0).2.2).1
  obtain ⟨d', hd', hcore⟩ := evol_present (e2.trans e3) h1
  exact ⟨d', hd', sameCore_comp (⟨rfl, rfl, rfl, rfl⟩ : SameCore d0 (pfCP d0)) hcore⟩

theorem pf_coherent (env : Env) (sfuel : Nat) (ty : DepedencyType)
    (fp : String) (st : RunState) (d0 : ClonedPackage)
    (h : lookupKey st.clonedPackages
        (bangName (readPackageJsonS env st (joinPath fp "package.json")).name)
      = some (some d0))
    (hents : ∀ e ∈ ((readPackageJsonS env st (joinPath fp "package.json")).dependencies.getD []
        ++ (readPackageJsonS env st (joinPath fp "package.json")).devDependencies.getD []),
      EntryUnchanged env ty st.clonedPackages d0.dependenciesToIgnore e.1 e.2) :
    (pfR1 env sfuel ty fp st d0).1
      = (readPackageJsonS env st (joinPath fp "package.json")).dependencies ∧
    (pfR1 env sfuel ty fp st d0).2.1 = [] ∧
    (pfR2 env sfuel ty fp st d0).1
      = (readPackageJsonS env st (joinPath fp "package.json")).devDependencies ∧
    (pfR2 env sfuel ty fp st d0).2.1 = [] ∧
    (pfR2 env sfuel ty fp st d0).2.2.clonedPackages
      = (pfSt1 env fp st d0).clonedPackages := by
  have e1 : CacheEvol env ty st.clonedPackages (pfSt1 env fp st d0).clonedPackages :=
    evol_setKey_updated env ty st.clonedPackages _ d0 (some true) h
  have hu1 : ∀ e ∈ (readPackageJsonS env st (joinPath fp "package.json")).dependencies.getD [],
      EntryUnchanged env ty (pfSt1 env fp st d0).clonedPackages
        (pfCP d0).dependenciesToIgnore e.1 e.2 :=
    fun e he => EntryUnchanged_evol (hents e (List.mem_append.mpr (Or.inl he))) e1
  have h1 := updD_unchanged env sfuel (pfCP d0)
    (readPackageJsonS env st (joinPath fp "package.json")).dependencies ty
    (pfSt1 env fp st d0) hu1
  have hu2 : ∀ e ∈ (readPackageJsonS env st (joinPath fp "package.json")).devDependencies.getD [],
      EntryUnchanged env ty (pfR1 env sfuel ty fp st d0).2.2.clonedPackages
        (pfCP d0).dependenciesToIgnore e.1 e.2 := by
    have hc : (pfR1 env sfuel ty fp st d0).2.2.clonedPackages
        = (pfSt1 env fp st d0).clonedPackages := h1.2.2
    rw [hc]
    exact fun e he => EntryUnchanged_evol (hents e (List.mem_append.mpr (Or.inr he))) e1
  have h2 := updD_unchanged env sfuel (pfCP d0)
    (readPackageJsonS env st (joinPath fp "package.json")).devDependencies ty
    (pfR1 env sfuel ty fp st d0).2.2 hu2
  exact ⟨h1.1, h1.2.1, h2.1, h2.2.1, h2.2.2.trans h1.2.2⟩

/-- When neither pass changed anything, `processFolder` writes no
manifest and no lock file; it only logs the iteration (and possibly
schedules an install). -/
theorem pfResult_nochange (env : Env) (sfuel : Nat) (ty : DepedencyType)
    (fi : Bool) (fp : String) (st : RunState) (d0 : ClonedPackage)
    (hemp : ((pfR1 env sfuel ty fp st d0).2.1.isEmpty &&
             (pfR2 env sfuel ty fp st d0).2.1.isEmpty) = true) :
    (pfResult env sfuel ty fi fp st d0).1.manifestWrites = st.manifestWrites ∧
    (pfResult env sfuel ty fi fp st d0).1.lockFileWrites = st.lockFileWrites ∧
    (pfResult env sfuel ty fi fp st d0).1.clonedPackages
      = (pfR2 env sfuel ty fp st d0).2.2.clonedPackages ∧
    (pfResult env sfuel ty fi fp st d0).1.processLog
      = st.processLog ++ [(fp, (pfR1 env sfuel ty fp st d0).2.1,
          (pfR2 env sfuel ty fp st d0).2.1)] ∧
    (pfResult env sfuel ty fi fp st d0).1.crashed = st.crashed := by
  have hpres := pfR2_preserves env sfuel ty fp st d0
  have hcr := pfR2_crashed env sfuel ty fp st d0
  unfold pfResult
  dsimp only
  rw [if_pos hemp]
  split
  · exact ⟨hpres.manifests, hpres.locks, rfl, by rw [hpres.plog], hcr⟩
  · exact ⟨hpres.manifests, hpres.locks, rfl, by rw [hpres.plog], hcr⟩

/-- When a pass changed something, `processFolder` appends exactly one
manifest write for the folder and at most one lock-file write. -/
theorem pfResult_change (env : Env) (sfuel : Nat) (ty : DepedencyType)
    (fi : Bool) (fp : String) (st : RunState) (d0 : ClonedPackage)
    (hemp : ((pfR1 env sfuel ty fp st d0).2.1.isEmpty &&
             (pfR2 env sfuel ty fp st d0).2.1.isEmpty) = false) :
    (pfResult env sfuel ty fi fp st d0).1.manifestWrites
      = st.manifestWrites ++ [(joinPath fp "package.json", pfPJ env sfuel ty fp st d0)] ∧
    ((pfResult env sfuel ty fi fp st d0).1.lockFileWrites = st.lockFileWrites ∨
      ∃ s, (pfResult env sfuel ty fi fp st d0).1.lockFileWrites
        = st.lockFileWrites ++ [(joinPath fp "package-lock.json", s)]) ∧
    (pfResult env sfuel ty fi fp st d0).1.clonedPackages
      = (pfR2 env sfuel ty fp st d0).2.2.clonedPackages ∧
    (pfResult env sfuel ty fi fp st d0).1.processLog
      = st.processLog ++ [(fp, (pfR1 env sfuel ty fp st d0).2.1,
          (pfR2 env sfuel ty fp st d0).2.1)] ∧
    (pfResult env sfuel ty fi fp st d0).1.crashed = st.crashed := by
  have hpres := pfR2_preserves env sfuel ty fp st d0
  have hcr := pfR2_crashed env sfuel ty fp st d0
  unfold pfResult
  dsimp only
  rw [hemp, if_neg Bool.false_ne_true]
  split
  · split
    · refine ⟨by rw [hpres.manifests], Or.inr ⟨_, by rw [hpres.locks]⟩, rfl,
        by rw [hpres.plog], hcr⟩
    · refine ⟨by rw [hpres.manifests], Or.inl (by rw [hpres.locks]), rfl,
        by rw [hpres.plog], hcr⟩
  · split
    · refine ⟨by rw [hpres.manifests], Or.inr ⟨_, by rw [hpres.locks]⟩, rfl,
        by rw [hpres.plog], hcr⟩
    · refine ⟨by rw [hpres.manifests], Or.inl (by rw [hpres.locks]), rfl,
        by rw [hpres.plog], hcr⟩

theorem join_eq_some {α : Type} {o : Option (Option α)} {a : α}
    (h : o.join = some a) : o = some (some a) := by
  cases o with
  | none => cases h
  | some o' =>
    cases o' with
    | none => cases h
    | some b =>
      have hb : b = a := by simpa [Option.join] using h
      rw [hb]

theorem FolderCoherent_evol {env : Env} {ty : DepedencyType}
    {mws : List (String × PackageJson)}
    {c c' : List (String × Option ClonedPackage)} {fp : String}
    (h : FolderCoherent env ty mws c fp) (he : CacheEvol env ty c c') :
    FolderCoherent env ty mws c' fp := by
  obtain ⟨d, hd, hents⟩ := h
  have hd2 : lookupKey c
      (bangName (readManifestW env mws (joinPath fp "package.json")).name)
      = some (some d) := join_eq_some hd
  obtain ⟨d', hd', hcore⟩ := evol_present he hd2
  refine ⟨d', by rw [hd']; rfl, ?_⟩
  intro e he'
  have h1 := EntryUnchanged_evol (hents e he') he
  rw [hcore.2.2.1]
  exact h1

theorem FolderCoherent_append_ne {env : Env} {ty : DepedencyType}
    {mws : List (String × PackageJson)}
    {c : List (String × Option ClonedPackage)} {fp : String}
    (p : String) (v : PackageJson)
    (h : FolderCoherent env ty mws c fp) (hp : p ≠ joinPath fp "package.json") :
    FolderCoherent env ty (mws ++ [(p, v)]) c fp := by
  unfold FolderCoherent at h ⊢
  rw [readManifestW_append_ne env mws p v (joinPath fp "package.json") hp]
  exact h

/-- One `processFolder` call preserves the write-uniqueness invariant and
the write-justification property. -/
theorem inv_processFolder (env : Env) (sfuel : Nat) (ty : DepedencyType)
    (fi : Bool) (fp : String) (st : RunState)
    (hinv : MainInv env ty st.manifestWrites st.lockFileWrites st.clonedPackages)
    (hwl : WriteLogged st) :
    MainInv env ty (processFolder env sfuel ty fi fp st).1.manifestWrites
      (processFolder env sfuel ty fi fp st).1.lockFileWrites
      (processFolder env sfuel ty fi fp st).1.clonedPackages ∧
    WriteLogged (processFolder env sfuel ty fi fp st).1 := by
  cases hj : (lookupKey st.clonedPackages
      (bangName (readPackageJsonS env st (joinPath fp "package.json")).name)).join with
  | none =>
    rw [processFolder_crash env sfuel ty fi fp st hj]
    exact ⟨hinv, hwl⟩
  | some d0 =>
    have h := join_eq_some hj
    rw [processFolder_eq env sfuel ty fi fp st d0 h]
    have hevol : CacheEvol env ty st.clonedPackages
        (pfR2 env sfuel ty fp st d0).2.2.clonedPackages :=
      pf_evol env sfuel ty fp st d0 h
    cases hemp : ((pfR1 env sfuel ty fp st d0).2.1.isEmpty &&
        (pfR2 env sfuel ty fp st d0).2.1.isEmpty) with
    | true =>
      obtain ⟨hm, hlk, hc, hpl, _⟩ := pfResult_nochange env sfuel ty fi fp st d0 hemp
      constructor
      · refine ⟨?_, ?_, ?_, ?_⟩
        · rw [hm]; exact hinv.1
        · rw [hlk]; exact hinv.2.1
        · rw [hlk, hm]; exact hinv.2.2.1
        · rw [hm, hc]
          intro fp' hmem
          exact FolderCoherent_evol (hinv.2.2.2 fp' hmem) hevol
      · refine ⟨?_, ?_⟩
        · rw [hm, hpl]
          intro w hw
          obtain ⟨e, he, hp⟩ := hwl.1 w hw
          exact ⟨e, List.mem_append.mpr (Or.inl he), hp⟩
        · rw [hlk, hpl]
          intro w hw
          obtain ⟨e, he, hp⟩ := hwl.2 w hw
          exact ⟨e, List.mem_append.mpr (Or.inl he), hp⟩
    | false =>
      obtain ⟨hm, hlk, hc, hpl, _⟩ := pfResult_change env sfuel ty fi fp st d0 hemp
      have hne : (pfR1 env sfuel ty fp st d0).2.1 ≠ [] ∨
          (pfR2 env sfuel ty fp st d0).2.1 ≠ [] := by
        by_cases h1 : (pfR1 env sfuel ty fp st d0).2.1 = []
        · by_cases h2 : (pfR2 env sfuel ty fp st d0).2.1 = []
          · rw [h1, h2] at hemp; simp at hemp
          · exact Or.inr h2
        · exact Or.inl h1
      have hfresh : joinPath fp "package.json" ∉ st.manifestWrites.map Prod.fst := by
        intro hmem
        obtain ⟨d, hd, hents⟩ := hinv.2.2.2 fp hmem
        have hd2 : lookupKey st.clonedPackages
            (bangName (readPackageJsonS env st (joinPath fp "package.json")).name)
            = some (some d) := join_eq_some hd
        have hdd : d = d0 := by
          have h0 := hd2.symm.trans h
          simpa using h0
        subst hdd
        have hcoh2 := pf_coherent env sfuel ty fp st d h hents
        rw [hcoh2.2.1, hcoh2.2.2.2.1] at hemp
        simp at hemp
      constructor
      · refine ⟨?_, ?_, ?_, ?_⟩
        · rw [hm]
          simp only [List.map_append]
          refine List.Nodup.append hinv.1 (by simp) ?_
          intro x hx hx2
          simp at hx2
          subst hx2
          exact hfresh hx
        · cases hlk with
          | inl hsame => rw [hsame]; exact hinv.2.1
          | inr hex =>
            obtain ⟨s, hl⟩ := hex
            rw [hl]
            simp only [List.map_append]
            refine List.Nodup.append hinv.2.1 (by simp) ?_
            intro x hx hx2
            simp at hx2
            subst hx2
            obtain ⟨w, hw, hw1⟩ := List.mem_map.mp hx
            obtain ⟨fp', hfp1, hfp2⟩ := hinv.2.2.1 w hw
            have heq : joinPath fp' "package-lock.json"
                = joinPath fp "package-lock.json" := hfp1.symm.trans hw1
            have hfpeq : fp' = fp := joinPath_right_injective _ heq
            rw [hfpeq] at hfp2
            exact hfresh hfp2
        · intro w hw
          rw [hm]
          simp only [List.map_append]
          cases hlk with
          | inl hsame =>
            rw [hsame] at hw
            obtain ⟨fp', h1, h2⟩ := hinv.2.2.1 w hw
            exact ⟨fp', h1, List.mem_append.mpr (Or.inl h2)⟩
          | inr hex =>
            obtain ⟨s, hl⟩ := hex
            rw [hl] at hw
            rcases List.mem_append.mp hw with hw1 | hw2
            · obtain ⟨fp', h1, h2⟩ := hinv.2.2.1 w hw1
              exact ⟨fp', h1, List.mem_append.mpr (Or.inl h2)⟩
            · have hww : w = (joinPath fp "package-lock.json", s) := by
                simpa using hw2
              refine ⟨fp, by rw [hww], List.mem_append.mpr (Or.inr (by simp))⟩
        · rw [hm, hc]
          intro fp' hmem
          simp only [List.map_append] at hmem
          rcases List.mem_append.mp hmem with hold | hnew
          · have hne' : joinPath fp "package.json" ≠ joinPath fp' "package.json" := by
              intro heq
              rw [heq] at hfresh
              exact hfresh hold
            exact FolderCoherent_append_ne _ _
              (FolderCoherent_evol (hinv.2.2.2 fp' hold) hevol) hne'
          · have hfpeq : fp' = fp := by
              have h1 : joinPath fp' "package.json" = joinPath fp "package.json" := by
                simpa using hnew
              exact joinPath_right_injective _ h1
            rw [hfpeq]
            unfold FolderCoherent
            rw [readManifestW_append_same]
            obtain ⟨d', hd', hcore⟩ := pf_present env sfuel ty fp st d0
            refine ⟨d', ?_, ?_⟩
            · have hname : (pfPJ env sfuel ty fp st d0).name
                  = (readPackageJsonS env st (joinPath fp "package.json")).name := rfl
              rw [hname, hd']
              rfl
            · intro e he
              rw [hcore.2.2.1]
              exact pf_post env sfuel ty fp st d0 e he
      · refine ⟨?_, ?_⟩
        · rw [hm, hpl]
          intro w hw
          rcases List.mem_append.mp hw with hw1 | hw2
          · obtain ⟨e, he, hp⟩ := hwl.1 w hw1
            exact ⟨e, List.mem_append.mpr (Or.inl he), hp⟩
          · have hww : w = (joinPath fp "package.json", pfPJ env sfuel ty fp st d0) := by
              simpa using hw2
            exact ⟨(fp, (pfR1 env sfuel ty fp st d0).2.1,
                (pfR2 env sfuel ty fp st d0).2.1),
              List.mem_append.mpr (Or.inr (by simp)), by rw [hww], hne⟩
        · rw [hpl]
          intro w hw
          cases hlk with
          | inl hsame =>
            rw [hsame] at hw
            obtain ⟨e, he, hp⟩ := hwl.2 w hw
            exact ⟨e, List.mem_append.mpr (Or.inl he), hp⟩
          | inr hex =>
            obtain ⟨s, hl⟩ := hex
            rw [hl] at hw
            rcases List.mem_append.mp hw with hw1 | hw2
            · obtain ⟨e, he, hp⟩ := hwl.2 w hw1
              exact ⟨e, List.mem_append.mpr (Or.inl he), hp⟩
            · have hww : w = (joinPath fp "package-lock.json", s) := by
                simpa using hw2
              exact ⟨(fp, (pfR1 env sfuel ty fp st d0).2.1,
                  (pfR2 env sfuel ty fp st d0).2.1),
                List.mem_append.mpr (Or.inr (by simp)), by rw [hww], hne⟩

theorem WriteLogged_congr {st st' : RunState}
    (hm : st'.manifestWrites = st.manifestWrites)
    (hl : st'.lockFileWrites = st.lockFileWrites)
    (hp : st'.processLog = st.processLog)
    (h : WriteLogged st) : WriteLogged st' := by
  unfold WriteLogged at h ⊢
  rw [hm, hl, hp]
  exact h

theorem MainInv_nil (env : Env) (ty : DepedencyType)
    (c : List (String × Option ClonedPackage)) : MainInv env ty [] [] c :=
  ⟨List.nodup_nil, List.nodup_nil, by simp, by simp⟩

theorem WriteLogged_of_empty (st : RunState) (hm : st.manifestWrites = [])
    (hl : st.lockFileWrites = []) : WriteLogged st := by
  constructor <;> intro w hw
  · rw [hm] at hw; cases hw
  · rw [hl] at hw; cases hw

theorem inv_mainLoopStep (env : Env) (sfuel : Nat) (ty : DepedencyType)
    (r fi : Bool) (st : RunState)
    (hinv : MainInv env ty st.manifestWrites st.lockFileWrites st.clonedPackages)
    (hwl : WriteLogged st) :
    MainInv env ty (mainLoopStep env sfuel ty r fi st).manifestWrites
      (mainLoopStep env sfuel ty r fi st).lockFileWrites
      (mainLoopStep env sfuel ty r fi st).clonedPackages ∧
    WriteLogged (mainLoopStep env sfuel ty r fi st) := by
  unfold mainLoopStep
  split
  · exact ⟨hinv, hwl⟩
  · rename_i fp rest hq
    dsimp only
    have hst1 := inv_processFolder env sfuel ty fi fp
      { st with packageFolderPathsToVisit := rest,
                packageFolderPathsVisited := st.packageFolderPathsVisited ++ [fp] }
      hinv hwl
    split
    · exact hst1
    · split
      · have hf := foldl_enqueue_frame
          (((processFolder env sfuel ty fi fp
              { st with packageFolderPathsToVisit := rest,
                        packageFolderPathsVisited := st.packageFolderPathsVisited ++ [fp] }).2.dependencies.getD []).map (fun x => x.1) ++
           ((processFolder env sfuel ty fi fp
              { st with packageFolderPathsToVisit := rest,
                        packageFolderPathsVisited := st.packageFolderPathsVisited ++ [fp] }).2.devDependencies.getD []).map (fun x => x.1))
          (processFolder env sfuel ty fi fp
            { st with packageFolderPathsToVisit := rest,
                      packageFolderPathsVisited := st.packageFolderPathsVisited ++ [fp] }).1
        refine ⟨?_, ?_⟩
        · rw [hf.2.2.2.2.2.1, hf.2.2.2.2.2.2.1, hf.2.1]
          exact hst1.1
        · exact WriteLogged_congr hf.2.2.2.2.2.1 hf.2.2.2.2.2.2.1
            hf.2.2.2.2.2.2.2.1 hst1.2
      · exact hst1

theorem inv_mainLoop (env : Env) (sfuel : Nat) (ty : DepedencyType)
    (r fi : Bool) : ∀ (fuel : Nat) (st : RunState),
    MainInv env ty st.manifestWrites st.lockFileWrites st.clonedPackages →
    WriteLogged st →
    MainInv env ty (mainLoop env sfuel ty r fi fuel st).manifestWrites
      (mainLoop env sfuel ty r fi fuel st).lockFileWrites
      (mainLoop env sfuel ty r fi fuel st).clonedPackages ∧
    WriteLogged (mainLoop env sfuel ty r fi fuel st) := by
  intro fuel
  induction fuel with
  | zero => exact fun st h1 h2 => ⟨h1, h2⟩
  | succ k ih =>
    intro st h1 h2
    by_cases hg : (st.packageFolderPathsToVisit.isEmpty || st.exitCode != 0
        || st.crashed) = true
    · simp only [mainLoop, hg, if_pos]
      exact ⟨h1, h2⟩
    · have hg' : (st.packageFolderPathsToVisit.isEmpty || st.exitCode != 0
          || st.crashed) = false := by simpa using hg
      have heq : mainLoop env sfuel ty r fi (k + 1) st =
          mainLoop env sfuel ty r fi k (mainLoopStep env sfuel ty r fi st) := by
        simp [mainLoop, hg']
      rw [heq]
      have hstep := inv_mainLoopStep env sfuel ty r fi st h1 h2
      exact ih _ hstep.1 hstep.2

/-- The write-uniqueness invariant and write-justification property hold
of every finished run. -/
theorem inv_run (env : Env) (sfuel lfuel : Nat) (pp : String)
    (ty : DepedencyType) (opts : ChangeClonedDependenciesToOptions) :
    MainInv env ty (changeClonedDependenciesTo env sfuel lfuel pp ty opts).2.manifestWrites
      (changeClonedDependenciesTo env sfuel lfuel pp ty opts).2.lockFileWrites
      (changeClonedDependenciesTo env sfuel lfuel pp ty opts).2.clonedPackages ∧
    WriteLogged (changeClonedDependenciesTo env sfuel lfuel pp ty opts).2 := by
  have hf := addPackagePaths_frame env opts (packagePathsToAdd pp opts) {}
  have h0inv : MainInv env ty
      (addPackagePaths env opts (packagePathsToAdd pp opts) {}).manifestWrites
      (addPackagePaths env opts (packagePathsToAdd pp opts) {}).lockFileWrites
      (addPackagePaths env opts (packagePathsToAdd pp opts) {}).clonedPackages := by
    rw [hf.2.1, hf.2.2.1]
    exact MainInv_nil env ty _
  have h0wl : WriteLogged (addPackagePaths env opts (packagePathsToAdd pp opts) {}) :=
    WriteLogged_of_empty _ hf.2.1 hf.2.2.1
  have h1 := inv_mainLoop env sfuel ty (opts.recursive.getD true)
    (opts.forceInstall.getD false) lfuel _ h0inv h0wl
  unfold changeClonedDependenciesTo
  dsimp only
  split
  · exact h1
  · have hri := runInstalls_frame env
      (mainLoop env sfuel ty (opts.recursive.getD true) (opts.forceInstall.getD false)
        lfuel (addPackagePaths env opts (packagePathsToAdd pp opts) {})).folderPathsToRunNPMInstallIn
      (mainLoop env sfuel ty (opts.recursive.getD true) (opts.forceInstall.getD false)
        lfuel (addPackagePaths env opts (packagePathsToAdd pp opts) {}))
    split
    · have hef := updateExtraFiles_frame env (opts.extraFilesToUpdate.getD [])
        (runInstalls env
          (mainLoop env sfuel ty (opts.recursive.getD true) (opts.forceInstall.getD false)
            lfuel (addPackagePaths env opts (packagePathsToAdd pp opts) {})).folderPathsToRunNPMInstallIn
          (mainLoop env sfuel ty (opts.recursive.getD true) (opts.forceInstall.getD false)
            lfuel (addPackagePaths env opts (packagePathsToAdd pp opts) {})))
      refine ⟨?_, ?_⟩
      · rw [hef.2.2.1, hef.2.2.2.1, hef.2.1, hri.2.2.1, hri.2.2.2.1, hri.2.1]
        exact h1.1
      · exact WriteLogged_congr (hef.2.2.1.trans hri.2.2.1)
          (hef.2.2.2.1.trans hri.2.2.2.1)
          (hef.2.2.2.2.1.trans hri.2.2.2.2.1) h1.2
    · refine ⟨?_, ?_⟩
      · rw [hri.2.2.1, hri.2.2.2.1, hri.2.1]
        exact h1.1
      · exact WriteLogged_congr hri.2.2.1 hri.2.2.2.1 hri.2.2.2.2.1 h1.2

/-- C5: for every folder, over a whole run the manifest file is written at
most once and the lock file is written at most once; if no dependency or
devDependency entry of the folder's manifest changed in any main-loop
iteration over that folder, neither file of that folder is written at all;
and every manifest or lock write for a folder is justified by a main-loop
iteration over that folder that changed at least one dependency or
devDependency entry. -/
theorem manifest_lock_written_once (env : Env) (sfuel lfuel : Nat) (pp : String)
    (ty : DepedencyType) (opts : ChangeClonedDependenciesToOptions) (fp : String) :
    (((changeClonedDependenciesTo env sfuel lfuel pp ty opts).2.manifestWrites.map
        Prod.fst).count (joinPath fp "package.json")) ≤ 1 ∧
    (((changeClonedDependenciesTo env sfuel lfuel pp ty opts).2.lockFileWrites.map
        Prod.fst).count (joinPath fp "package-lock.json")) ≤ 1 ∧
    ((∀ e ∈ (changeClonedDependenciesTo env sfuel lfuel pp ty opts).2.processLog,
        e.1 = fp → e.2.1 = [] ∧ e.2.2 = []) →
      joinPath fp "package.json" ∉
        (changeClonedDependenciesTo env sfuel lfuel pp ty opts).2.manifestWrites.map
          Prod.fst ∧
      joinPath fp "package-lock.json" ∉
        (changeClonedDependenciesTo env sfuel lfuel pp ty opts).2.lockFileWrites.map
          Prod.fst) ∧
    (∀ w ∈ (changeClonedDependenciesTo env sfuel lfuel pp ty opts).2.manifestWrites,
      w.1 = joinPath fp "package.json" →
      ∃ e ∈ (changeClonedDependenciesTo env sfuel lfuel pp ty opts).2.processLog,
        e.1 = fp ∧ (e.2.1 ≠ [] ∨ e.2.2 ≠ [])) ∧
    (∀ w ∈ (changeClonedDependenciesTo env sfuel lfuel pp ty opts).2.lockFileWrites,
      w.1 = joinPath fp "package-lock.json" →
      ∃ e ∈ (changeClonedDependenciesTo env sfuel lfuel pp ty opts).2.processLog,
        e.1 = fp ∧ (e.2.1 ≠ [] ∨ e.2.2 ≠ [])) := by
  obtain ⟨⟨hnm, hnl, _, _⟩, hwl⟩ := inv_run env sfuel lfuel pp ty opts
  have hjust1 : ∀ w ∈ (changeClonedDependenciesTo env sfuel lfuel pp ty opts).2.manifestWrites,
      w.1 = joinPath fp "package.json" →
      ∃ e ∈ (changeClonedDependenciesTo env sfuel lfuel pp ty opts).2.processLog,
        e.1 = fp ∧ (e.2.1 ≠ [] ∨ e.2.2 ≠ []) := by
    intro w hw hw1
    obtain ⟨e, he, hp1, hp2⟩ := hwl.1 w hw
    have hef : e.1 = fp :=
      joinPath_right_injective _ (hp1.symm.trans hw1)
    exact ⟨e, he, hef, hp2⟩
  have hjust2 : ∀ w ∈ (changeClonedDependenciesTo env sfuel lfuel pp ty opts).2.lockFileWrites,
      w.1 = joinPath fp "package-lock.json" →
      ∃ e ∈ (changeClonedDependenciesTo env sfuel lfuel pp ty opts).2.processLog,
        e.1 = fp ∧ (e.2.1 ≠ [] ∨ e.2.2 ≠ []) := by
    intro w hw hw1
    obtain ⟨e, he, hp1, hp2⟩ := hwl.2 w hw
    have hef : e.1 = fp :=
      joinPath_right_injective _ (hp1.symm.trans hw1)
    exact ⟨e, he, hef, hp2⟩
  refine ⟨List.nodup_iff_count_le_one.mp hnm _,
    List.nodup_iff_count_le_one.mp hnl _, ?_, hjust1, hjust2⟩
  intro hall
  constructor
  · intro hmem
    obtain ⟨w, hw, hw1⟩ := List.mem_map.mp hmem
    obtain ⟨e, he, hef, hp⟩ := hjust1 w hw hw1
    rcases hp with hp | hp
    · exact hp (hall e he hef).1
    · exact hp (hall e he hef).2
  · intro hmem
    obtain ⟨w, hw, hw1⟩ := List.mem_map.mp hmem
    obtain ⟨e, he, hef, hp⟩ := hjust2 w hw hw1
    rcases hp with hp | hp
    · exact hp (hall e he hef).1
    · exact hp (hall e he hef).2

/-- C5 at the sample workspace: the root package's manifest is written at
most once, and the dependency-only clone `r/c` (which is processed by the
recursive pass but whose manifest never changes) is never written. -/
theorem manifest_lock_written_once_witness :
    (((changeClonedDependenciesTo sampleEnv 10 10 "r/a" DepedencyType.strLocal
        {}).2.manifestWrites.map Prod.fst).count (joinPath "r/a" "package.json")) ≤ 1 ∧
    joinPath "r/c" "package.json" ∉
      (changeClonedDependenciesTo sampleEnv 10 10 "r/a" DepedencyType.strLocal
        {}).2.manifestWrites.map Prod.fst := by
  refine ⟨(manifest_lock_written_once sampleEnv 10 10 "r/a"
    DepedencyType.strLocal {} "r/a").1, ?_⟩
  exact ((manifest_lock_written_once sampleEnv 10 10 "r/a"
    DepedencyType.strLocal {} "r/c").2.2.1 (by decide)).1

end DepSync
